import Mathlib

/-!
Verification of the natural-language specification of `inventory-proxy`
(`src/server.js`, `src/auth.js`) against a shallow embedding of its code.

The JavaScript sources are embedded as executable Lean definitions:
JS strings are Lean `String`s, byte buffers are `List Nat` (each entry < 256),
times are `Int` milliseconds (`Date.now()` is passed in explicitly), and the
only opaque cryptographic primitive, `crypto.createHmac("sha256", k).update(m).digest("hex")`,
is a parameter `hmacHex : String → String → String` of each definition that
uses it (every claim below is insensitive to the hash internals, so the
theorems quantify over it).  JavaScript exceptions are modelled with
`Except Unit`.
-/

namespace InventoryProxy

/-! ## Runtime primitives: character and byte encodings -/

/-- UTF-16 code units of one character.  JavaScript strings are sequences of
UTF-16 code units, and the relational operators `<` / `>` compare them unit
by unit. -/
def utf16Units (c : Char) : List Nat :=
  let n := c.toNat
  if n < 0x10000 then [n]
  else [0xD800 + (n - 0x10000) / 0x400, 0xDC00 + (n - 0x10000) % 0x400]

/-- UTF-16 code-unit sequence of a string. -/
def utf16 (s : String) : List Nat := (s.data.map utf16Units).flatten

/-- Strict lexicographic order on lists of naturals. -/
def natListLt : List Nat → List Nat → Bool
  | [], [] => false
  | [], _ :: _ => true
  | _ :: _, [] => false
  | a :: as, b :: bs => if a < b then true else if b < a then false else natListLt as bs

/-- The JavaScript `<` operator on strings: lexicographic comparison of
UTF-16 code units. -/
def jsStrLt (a b : String) : Bool := natListLt (utf16 a) (utf16 b)

/-- The sort comparator from `verifyShopifyHmac` in `src/server.js`, line 125:
`(a < b ? -1 : a > b ? 1 : 0)` applied to key strings. -/
def jsStrCompare (a b : String) : Int :=
  if jsStrLt a b then -1 else if jsStrLt b a then 1 else 0

/-- UTF-8 bytes of one character (the scalar value is valid by `Char`). -/
def utf8Char (c : Char) : List Nat :=
  let n := c.toNat
  if n < 0x80 then [n]
  else if n < 0x800 then [0xC0 + n / 0x40, 0x80 + n % 0x40]
  else if n < 0x10000 then
    [0xE0 + n / 0x1000, 0x80 + n / 0x40 % 0x40, 0x80 + n % 0x40]
  else
    [0xF0 + n / 0x40000, 0x80 + n / 0x1000 % 0x40, 0x80 + n / 0x40 % 0x40, 0x80 + n % 0x40]

/-- UTF-8 byte sequence of a string: models Node's `Buffer.from(s, "utf8")`. -/
def utf8 (s : String) : List Nat := (s.data.map utf8Char).flatten

/-- Decode one UTF-8 sequence whose lead byte is `b1` and whose following
bytes start `r`; returns the character and how many bytes of `r` belong to
the sequence.  Malformed sequences give U+FFFD and consume only the lead
byte. -/
def utf8Step (b1 : Nat) (r : List Nat) : Char × Nat :=
  if b1 < 0x80 then (Char.ofNat b1, 0)
  else if 0xC2 ≤ b1 && b1 < 0xE0 then
    match r with
    | b2 :: _ =>
      if 0x80 ≤ b2 && b2 < 0xC0 then
        (Char.ofNat ((b1 - 0xC0) * 0x40 + (b2 - 0x80)), 1)
      else (Char.ofNat 0xFFFD, 0)
    | [] => (Char.ofNat 0xFFFD, 0)
  else if 0xE0 ≤ b1 && b1 < 0xF0 then
    match r with
    | b2 :: b3 :: _ =>
      if (0x80 ≤ b2 && b2 < 0xC0) && (0x80 ≤ b3 && b3 < 0xC0) then
        let n := (b1 - 0xE0) * 0x1000 + (b2 - 0x80) * 0x40 + (b3 - 0x80)
        if 0x800 ≤ n && (n < 0xD800 || 0xE000 ≤ n) then (Char.ofNat n, 2)
        else (Char.ofNat 0xFFFD, 0)
      else (Char.ofNat 0xFFFD, 0)
    | _ => (Char.ofNat 0xFFFD, 0)
  else if 0xF0 ≤ b1 && b1 < 0xF8 then
    match r with
    | b2 :: b3 :: b4 :: _ =>
      if (0x80 ≤ b2 && b2 < 0xC0) && ((0x80 ≤ b3 && b3 < 0xC0) && (0x80 ≤ b4 && b4 < 0xC0)) then
        let n := (b1 - 0xF0) * 0x40000 + (b2 - 0x80) * 0x1000 + (b3 - 0x80) * 0x40 + (b4 - 0x80)
        if 0x10000 ≤ n && n < 0x110000 then (Char.ofNat n, 3)
        else (Char.ofNat 0xFFFD, 0)
      else (Char.ofNat 0xFFFD, 0)
    | _ => (Char.ofNat 0xFFFD, 0)
  else (Char.ofNat 0xFFFD, 0)

/-- Fuel-structural worker for `utf8Decode`; each step consumes at least
the lead byte, so fuel equal to the input length is enough. -/
def utf8DecodeAux : Nat → List Nat → List Char
  | 0, _ => []
  | _, [] => []
  | fuel + 1, b1 :: r =>
    let s := utf8Step b1 r
    s.1 :: utf8DecodeAux fuel (r.drop s.2)

/-- Decode UTF-8 bytes back to characters, the way Node's
`buffer.toString("utf8")` does: malformed sequences decode to U+FFFD and
decoding continues (it never throws). -/
def utf8Decode (l : List Nat) : List Char := utf8DecodeAux l.length l

/-! ## Base64url (Node `Buffer` codec)

`b64urlEncodeStr` models `Buffer.from(str, "utf8").toString("base64url")`
(unpadded, `-`/`_` alphabet).  `b64urlDecodeStr` models
`Buffer.from(b64, "base64url").toString("utf8")`: Node's base64 decoder
accepts both the standard and the url-safe alphabet, skips characters
outside it, and drops a lone trailing sextet; it never throws. -/

/-- Character for one 6-bit group, url-safe alphabet. -/
def b64Char (n : Nat) : Char :=
  if n < 26 then Char.ofNat (65 + n)
  else if n < 52 then Char.ofNat (97 + (n - 26))
  else if n < 62 then Char.ofNat (48 + (n - 52))
  else if n = 62 then '-'
  else '_'

/-- Inverse of `b64Char`, accepting both base64 alphabets; characters outside
them decode to `none` (and are skipped by the decoder). -/
def b64DecChar (c : Char) : Option Nat :=
  if 'A' ≤ c && c ≤ 'Z' then some (c.toNat - 65)
  else if 'a' ≤ c && c ≤ 'z' then some (c.toNat - 97 + 26)
  else if '0' ≤ c && c ≤ '9' then some (c.toNat - 48 + 52)
  else if c = '+' || c = '-' then some 62
  else if c = '/' || c = '_' then some 63
  else none

/-- Base64url rendering of a byte list (unpadded). -/
def b64EncodeBytes : List Nat → List Char
  | [] => []
  | [b1] => [b64Char (b1 / 4), b64Char (b1 % 4 * 16)]
  | [b1, b2] => [b64Char (b1 / 4), b64Char (b1 % 4 * 16 + b2 / 16), b64Char (b2 % 16 * 4)]
  | b1 :: b2 :: b3 :: r =>
    b64Char (b1 / 4) :: b64Char (b1 % 4 * 16 + b2 / 16) ::
      b64Char (b2 % 16 * 4 + b3 / 64) :: b64Char (b3 % 64) :: b64EncodeBytes r

/-- Sextet values of the characters of a base64 text, skipping characters
outside the alphabets (Node's leniency). -/
def b64Sextets (cs : List Char) : List Nat := cs.filterMap b64DecChar

/-- Bytes of a sextet list; a lone trailing sextet carries no byte. -/
def b64DecodeSextets : List Nat → List Nat
  | s1 :: s2 :: s3 :: s4 :: r =>
    (s1 * 4 + s2 / 16) :: (s2 % 16 * 16 + s3 / 4) :: (s3 % 4 * 64 + s4) :: b64DecodeSextets r
  | [s1, s2] => [s1 * 4 + s2 / 16]
  | [s1, s2, s3] => [s1 * 4 + s2 / 16, s2 % 16 * 16 + s3 / 4]
  | _ => []

/-- Models `b64urlEncode` of `src/server.js` lines 38-40. -/
def b64urlEncodeStr (s : String) : String := String.mk (b64EncodeBytes (utf8 s))

/-- Models `b64urlDecode` of `src/server.js` lines 41-43. -/
def b64urlDecodeStr (s : String) : String :=
  String.mk (utf8Decode (b64DecodeSextets (b64Sextets s.data)))

/-! ## JSON values, `JSON.stringify` and `JSON.parse`

Model restrictions (each a corner no claim depends on): numbers are
integers (fractional or exponent literals make the model parser fail
where JS would produce a double), and `\uXXXX` escapes denoting lone
surrogate halves make it fail where a JS string would hold the lone
UTF-16 unit. -/

/-- A JavaScript JSON value.  Objects keep insertion order and, as in a JS
object, hold at most one binding per key (the parser overwrites on
duplicate keys, as `JSON.parse` does). -/
inductive Js where
  | null
  | bool (b : Bool)
  | num (n : Int)
  | str (s : String)
  | arr (elems : List Js)
  | obj (fields : List (String × Js))

/-- Fuel-structural worker for `natDigitsRev` (fuel `n + 1` is enough:
each step divides by 10). -/
def natDigitsRevAux : Nat → Nat → List Char
  | 0, _ => []
  | fuel + 1, n =>
    if n < 10 then [Char.ofNat (48 + n)]
    else Char.ofNat (48 + n % 10) :: natDigitsRevAux fuel (n / 10)

/-- Decimal digits of a natural number, least significant first. -/
def natDigitsRev (n : Nat) : List Char := natDigitsRevAux (n + 1) n

/-- Decimal rendering of a natural number. -/
def natToString (n : Nat) : String := String.mk (natDigitsRev n).reverse

/-- Decimal rendering of an integer, as JS renders integral numbers. -/
def intToString (i : Int) : String :=
  if i < 0 then "-" ++ natToString i.natAbs else natToString i.natAbs

/-- Lowercase hex digit (`JSON.stringify` emits lowercase in `\u00xx`). -/
def hexDigit (n : Nat) : Char :=
  if n < 10 then Char.ofNat (48 + n) else Char.ofNat (87 + n)

/-- How `JSON.stringify` escapes one character inside a string literal. -/
def escapeChar (c : Char) : List Char :=
  if c = '"' then ['\\', '"']
  else if c = '\\' then ['\\', '\\']
  else if c = Char.ofNat 8 then ['\\', 'b']
  else if c = Char.ofNat 9 then ['\\', 't']
  else if c = Char.ofNat 10 then ['\\', 'n']
  else if c = Char.ofNat 12 then ['\\', 'f']
  else if c = Char.ofNat 13 then ['\\', 'r']
  else if c.toNat < 0x20 then
    ['\\', 'u', '0', '0', hexDigit (c.toNat / 16), hexDigit (c.toNat % 16)]
  else [c]

/-- A JSON string literal for `s`, quotes included. -/
def escapeString (s : String) : String :=
  "\"" ++ String.mk (s.data.map escapeChar).flatten ++ "\""

mutual

/-- Models `JSON.stringify` on the modelled values. -/
def jsonStringify : Js → String
  | .null => "null"
  | .bool true => "true"
  | .bool false => "false"
  | .num n => intToString n
  | .str s => escapeString s
  | .arr es => "[" ++ stringifyElems es ++ "]"
  | .obj ms => "\x7b" ++ stringifyMembers ms ++ "\x7d"

/-- Comma-separated renderings of array elements. -/
def stringifyElems : List Js → String
  | [] => ""
  | [v] => jsonStringify v
  | v :: rest => jsonStringify v ++ "," ++ stringifyElems rest

/-- Comma-separated renderings of object members. -/
def stringifyMembers : List (String × Js) → String
  | [] => ""
  | [(k, v)] => escapeString k ++ ":" ++ jsonStringify v
  | (k, v) :: rest => escapeString k ++ ":" ++ jsonStringify v ++ "," ++ stringifyMembers rest

end

/-- JSON whitespace (the four characters `JSON.parse` skips). -/
def isJsonWs (c : Char) : Bool := c = ' ' || c = Char.ofNat 9 || c = Char.ofNat 10 || c = Char.ofNat 13

/-- Drop leading JSON whitespace. -/
def skipWs : List Char → List Char
  | c :: cs => if isJsonWs c then skipWs cs else c :: cs
  | [] => []

/-- Leading run of decimal digits, and the rest. -/
def takeDigits : List Char → List Char × List Char
  | c :: cs =>
    if 48 ≤ c.toNat && c.toNat ≤ 57 then
      let p := takeDigits cs
      (c :: p.1, p.2)
    else ([], c :: cs)
  | [] => ([], [])

/-- Numeric value of a digit run. -/
def digitsVal (ds : List Char) : Nat := ds.foldl (fun a c => a * 10 + (c.toNat - 48)) 0

/-- Hex value of one character, if it is a hex digit. -/
def hexVal (c : Char) : Option Nat :=
  if 48 ≤ c.toNat && c.toNat ≤ 57 then some (c.toNat - 48)
  else if 97 ≤ c.toNat && c.toNat ≤ 102 then some (c.toNat - 87)
  else if 65 ≤ c.toNat && c.toNat ≤ 70 then some (c.toNat - 55)
  else none

/-- One-character inverse of the short escapes. -/
def unescapeChar : Char → Option Char
  | '"' => some '"'
  | '\\' => some '\\'
  | '/' => some '/'
  | 'b' => some (Char.ofNat 8)
  | 'f' => some (Char.ofNat 12)
  | 'n' => some (Char.ofNat 10)
  | 'r' => some (Char.ofNat 13)
  | 't' => some (Char.ofNat 9)
  | _ => none

/-- Decode the escape sequence that follows a backslash: the character it
denotes and how many input characters it spans.  A `\uXXXX` denoting a
surrogate half is rejected (model restriction, see the section comment). -/
def unescapeStep : List Char → Option (Char × Nat)
  | 'u' :: a :: b :: c :: d :: _ =>
    match hexVal a, hexVal b, hexVal c, hexVal d with
    | some va, some vb, some vc, some vd =>
      let n := ((va * 16 + vb) * 16 + vc) * 16 + vd
      if 0xD800 ≤ n && n < 0xE000 then none
      else some (Char.ofNat n, 5)
    | _, _, _, _ => none
  | e :: _ =>
    match unescapeChar e with
    | some c => some (c, 1)
    | none => none
  | [] => none

/-- Fuel-structural worker for `parseStringBody`; each step consumes at
least one character, so fuel equal to the input length is enough. -/
def parseStringBodyAux : Nat → List Char → List Char → Option (String × List Char)
  | 0, _, _ => none
  | _, _, [] => none
  | fuel + 1, acc, c :: rest =>
    if c = '"' then some (String.mk acc.reverse, rest)
    else if c = '\\' then
      match unescapeStep rest with
      | some (e, k) => parseStringBodyAux fuel (e :: acc) (rest.drop k)
      | none => none
    else if c.toNat < 0x20 then none
    else parseStringBodyAux fuel (c :: acc) rest

/-- Parse the body of a JSON string literal (after the opening quote),
accumulating in reverse; returns the string and the input after the
closing quote. -/
def parseStringBody (acc : List Char) (l : List Char) : Option (String × List Char) :=
  parseStringBodyAux l.length acc l

/-- Replace-or-append of one binding, the way assigning a property during
`JSON.parse` of an object literal behaves on duplicate keys. -/
def jsUpsert : List (String × Js) → String → Js → List (String × Js)
  | [], k, v => [(k, v)]
  | (k0, v0) :: rest, k, v =>
    if k0 = k then (k0, v) :: rest else (k0, v0) :: jsUpsert rest k v

/-- The integer grammar of a JSON number after the optional minus sign:
`0` or a nonzero digit followed by digits; the model rejects a following
`.`, `e` or `E` (integer restriction). -/
def parseIntBody (cs : List Char) : Option (Nat × List Char) :=
  match takeDigits cs with
  | ([], _) => none
  | (d :: ds, r) =>
    if d = '0' && ds ≠ [] then none
    else
      match r with
      | c :: _ => if c = '.' || c = 'e' || c = 'E' then none else some (digitsVal (d :: ds), r)
      | [] => some (digitsVal (d :: ds), [])

mutual

/-- Parse one JSON value (fuel-structural).  Follows the `JSON.parse`
grammar; numbers are restricted to integers (see the section comment). -/
def parseValue (fuel : Nat) (cs : List Char) : Option (Js × List Char) :=
  match fuel with
  | 0 => none
  | fuel + 1 =>
    match skipWs cs with
    | [] => none
    | c :: r =>
      if c = 'n' then
        match r with
        | 'u' :: 'l' :: 'l' :: r1 => some (.null, r1)
        | _ => none
      else if c = 't' then
        match r with
        | 'r' :: 'u' :: 'e' :: r1 => some (.bool true, r1)
        | _ => none
      else if c = 'f' then
        match r with
        | 'a' :: 'l' :: 's' :: 'e' :: r1 => some (.bool false, r1)
        | _ => none
      else if c = '"' then
        match parseStringBody [] r with
        | some (s, r1) => some (.str s, r1)
        | none => none
      else if c = '[' then
        match skipWs r with
        | ']' :: r1 => some (.arr [], r1)
        | r1 => match parseElems fuel r1 with
          | some (es, r2) => some (.arr es, r2)
          | none => none
      else if c = '{' then
        match skipWs r with
        | '}' :: r1 => some (.obj [], r1)
        | r1 => match parseMembers fuel r1 [] with
          | some (ms, r2) => some (.obj ms, r2)
          | none => none
      else if c = '-' then
        match parseIntBody r with
        | some (n, r1) => some (.num (-(n : Int)), r1)
        | none => none
      else if 48 ≤ c.toNat && c.toNat ≤ 57 then
        match parseIntBody (c :: r) with
        | some (n, r1) => some (.num (n : Int), r1)
        | none => none
      else none
termination_by structural fuel

/-- Parse one-or-more comma-separated array elements up to `]`. -/
def parseElems (fuel : Nat) (cs : List Char) : Option (List Js × List Char) :=
  match fuel with
  | 0 => none
  | fuel + 1 =>
    match parseValue fuel cs with
    | none => none
    | some (v, r) =>
      match skipWs r with
      | [] => none
      | c :: r1 =>
        if c = ',' then
          match parseElems fuel r1 with
          | some (vs, r2) => some (v :: vs, r2)
          | none => none
        else if c = ']' then some ([v], r1)
        else none
termination_by structural fuel

/-- Parse one-or-more comma-separated object members up to `}`,
accumulating with `jsUpsert` (duplicate keys: last one wins). -/
def parseMembers (fuel : Nat) (cs : List Char) (acc : List (String × Js)) :
    Option (List (String × Js) × List Char) :=
  match fuel with
  | 0 => none
  | fuel + 1 =>
    match skipWs cs with
    | [] => none
    | c :: r =>
      if c = '"' then
        match parseStringBody [] r with
        | none => none
        | some (k, r1) =>
          match skipWs r1 with
          | [] => none
          | c1 :: r2 =>
            if c1 = ':' then
              match parseValue fuel r2 with
              | none => none
              | some (v, r3) =>
                match skipWs r3 with
                | [] => none
                | c2 :: r4 =>
                  if c2 = ',' then parseMembers fuel r4 (jsUpsert acc k v)
                  else if c2 = '}' then some (jsUpsert acc k v, r4)
                  else none
            else none
      else none
termination_by structural fuel

end

/-- Models `JSON.parse`: parse one value and require only whitespace after
it; `none` models the thrown `SyntaxError`. -/
def jsonParse (s : String) : Option Js :=
  match parseValue (s.data.length + 1) s.data with
  | some (v, r) => if skipWs r = [] then some v else none
  | none => none

/-! ## JavaScript value coercions used by the sources -/

/-- Query-string values as Express delivers them in `req.query`: a string
or an array of strings.  (Nested objects from extended qs parsing are a
corner outside the model; no claim involves them.) -/
inductive QVal where
  | str (s : String)
  | arr (vs : List String)
deriving DecidableEq

/-- JS template-literal / `String()` coercion: an array joins its elements
with commas; `v.join(",")` coincides with it on arrays of strings. -/
def qvalToString : QVal → String
  | .str s => s
  | .arr vs => String.intercalate "," vs

/-- Template coercion of a possibly-undefined value (JS renders
`undefined` as the word `undefined`). -/
def jsTemplateOpt : Option QVal → String
  | none => "undefined"
  | some v => qvalToString v

/-- JS truthiness of a query value. -/
def qvalTruthy : QVal → Bool
  | .str s => !(s == "")
  | .arr _ => true

/-- Truthiness of a possibly-absent query value (`!x` on a destructured
`req.query` field). -/
def qvalTruthyOpt : Option QVal → Bool
  | none => false
  | some v => qvalTruthy v

/-- JS truthiness of a JSON value (integers model numbers, so the NaN
case does not arise here). -/
def truthy : Js → Bool
  | .null => false
  | .bool b => b
  | .num n => !(n == 0)
  | .str s => !(s == "")
  | .arr _ => true
  | .obj _ => true

/-- Truthiness of a possibly-undefined value. -/
def truthyOpt : Option Js → Bool
  | none => false
  | some v => truthy v

/-- Property lookup as by optional chaining `v?.k`: `none` is JS
`undefined`; on `null` and on primitives the result is `undefined`. -/
def jsGet : Js → String → Option Js
  | .obj ms, k => ms.lookup k
  | _, _ => none

/-- Property access `v.k` with a plain dot: throws a `TypeError` on
`null`; on other non-objects gives `undefined`. -/
def jsGetThrow : Js → String → Except Unit (Option Js)
  | .null, _ => .error ()
  | .obj ms, k => .ok (ms.lookup k)
  | _, _ => .ok none

/-- JS whitespace trimmed by `ToNumber` (the model covers the ASCII
whitespace characters). -/
def isJsWs (c : Char) : Bool :=
  c = ' ' || c = Char.ofNat 9 || c = Char.ofNat 10 || c = Char.ofNat 11 ||
  c = Char.ofNat 12 || c = Char.ofNat 13

/-- All characters are decimal digits. -/
def allDigits (ds : List Char) : Bool := ds.all (fun c => 48 ≤ c.toNat && c.toNat ≤ 57)

/-- JS `ToNumber` of a string, NaN as `none`: trimmed; empty → 0; an
optional sign and decimal digits.  Forms the model does not evaluate
(fractions, exponents, hex, `Infinity`) also give `none`; of these only
the integer forms occur in the repository's data. -/
def jsStringToNumber (s : String) : Option Int :=
  let t := ((s.data.dropWhile isJsWs).reverse.dropWhile isJsWs).reverse
  match t with
  | [] => some 0
  | '-' :: ds => if ds ≠ [] ∧ allDigits ds then some (-(digitsVal ds : Int)) else none
  | '+' :: ds => if ds ≠ [] ∧ allDigits ds then some (digitsVal ds : Int) else none
  | ds => if allDigits ds then some (digitsVal ds : Int) else none

/-- JS `ToNumber` of a JSON value, NaN as `none`.  An array coerces via
`ToPrimitive` (its comma-joined string); the model covers the shapes with
zero or one element and treats longer arrays as NaN. -/
def toNumber : Js → Option Int
  | .null => some 0
  | .bool b => some (if b then 1 else 0)
  | .num n => some n
  | .str s => jsStringToNumber s
  | .arr [] => some 0
  | .arr [.num n] => some n
  | .arr [.str s] => jsStringToNumber s
  | .arr [.null] => some 0
  | .arr _ => none
  | .obj _ => none

/-- The expiry test `Date.now() - payload.ts > maxAgeMs` from
`verifyStateToken`, with JS numeric coercion: a NaN difference compares
false, so it does not trigger the early return. -/
def ageExceeded (now : Int) (ts : Option Js) (maxAgeMs : Int) : Bool :=
  match ts with
  | none => false
  | some v =>
    match toNumber v with
    | none => false
    | some t => decide (now - t > maxAgeMs)

/-- The test `expectedShop && payload.shop !== expectedShop` from
`verifyStateToken`, true when it causes the early `return false`.  A JS
array argument is an object and is never strictly equal to a parsed JSON
value. -/
def shopMismatch (pshop : Option Js) (expectedShop : Option QVal) : Bool :=
  match expectedShop with
  | none => false
  | some es =>
    if qvalTruthy es then
      match es, pshop with
      | .str s, some (.str ps) => !(ps == s)
      | _, _ => true
    else false

/-- JS `String.prototype.split` with a one-character separator: keeps
empty pieces; the empty string yields one empty piece. -/
def splitOnChar (sep : Char) : List Char → List (List Char)
  | [] => [[]]
  | c :: rest =>
    if c = sep then [] :: splitOnChar sep rest
    else
      match splitOnChar sep rest with
      | l :: ls => (c :: l) :: ls
      | [] => [[c]]

/-- String-level split. -/
def jsSplit (sep : Char) (s : String) : List String :=
  (splitOnChar sep s.data).map String.mk

/-- Node `crypto.timingSafeEqual`: throws when the buffers differ in
length, otherwise reports byte equality (the timing itself is not a
functional property). -/
def timingSafeEqual (a b : List Nat) : Except Unit Bool :=
  if a.length = b.length then .ok (a == b) else .error ()

/-- Characters `encodeURIComponent` leaves unescaped:
alphanumerics and `-_.!~*(')`. -/
def isUriUnreserved (c : Char) : Bool :=
  (65 ≤ c.toNat && c.toNat ≤ 90) || (97 ≤ c.toNat && c.toNat ≤ 122) ||
  (48 ≤ c.toNat && c.toNat ≤ 57) ||
  c = '-' || c = '_' || c = '.' || c = '!' || c = '~' || c = '*' ||
  c = Char.ofNat 39 || c = '(' || c = ')'

/-- Uppercase hex digit (percent-escapes are uppercase). -/
def hexDigitUpper (n : Nat) : Char :=
  if n < 10 then Char.ofNat (48 + n) else Char.ofNat (55 + n)

/-- JS `encodeURIComponent`: unreserved characters pass through, every
other character becomes `%XX` per UTF-8 byte. -/
def encodeURIComponent (s : String) : String :=
  String.mk ((s.data.map (fun c =>
    if isUriUnreserved c then [c]
    else ((utf8Char c).map
      (fun b => ['%', hexDigitUpper (b / 16), hexDigitUpper (b % 16)])).flatten)).flatten)

/-- Stable insertion of `x` (originally before the list) into a list
already sorted by the comparator. -/
def sortInsert (cmp : α → α → Int) (x : α) : List α → List α
  | [] => [x]
  | y :: ys => if cmp x y ≤ 0 then x :: y :: ys else y :: sortInsert cmp x ys

/-- Stable comparator sort, the guarantee `Array.prototype.sort` gives for
a consistent comparator. -/
def jsSortBy (cmp : α → α → Int) : List α → List α
  | [] => []
  | x :: xs => sortInsert cmp x (jsSortBy cmp xs)

/-! ## Embedded source: state tokens (`src/server.js` lines 48-80) -/

/-- Default `maxAgeMs` of `verifyStateToken`: `10 * 60 * 1000`. -/
def stateTokenMaxAge : Int := 10 * 60 * 1000

/-- Models `createStateToken(shop)` (`src/server.js` lines 48-57).  The
randomness `crypto.randomBytes(8).toString("hex")` and the clock are the
inputs `nonce` and `now`. -/
def createStateToken (hmacHex : String → String → String) (apiSecret shop : String)
    (now : Int) (nonce : String) : String :=
  let payloadB64 := b64urlEncodeStr (jsonStringify
    (.obj [("shop", .str shop), ("ts", .num now), ("n", .str nonce)]))
  payloadB64 ++ "." ++ hmacHex apiSecret payloadB64

/-- Models `verifyStateToken(token, expectedShop, maxAgeMs)`
(`src/server.js` lines 59-80).  `Except` carries potential JS exceptions:
`timingSafeEqual` is reached only behind the length guard, and the
`JSON.parse` inside `try` surfaces here as the `none` branch. -/
def verifyStateTokenE (hmacHex : String → String → String) (apiSecret : String) (now : Int)
    (token : String) (expectedShop : Option QVal := none)
    (maxAgeMs : Int := stateTokenMaxAge) : Except Unit Bool :=
  match jsSplit '.' token with
  | [payloadB64, sigHex] =>
    let expectedSig := hmacHex apiSecret payloadB64
    let a := utf8 expectedSig
    let b := utf8 sigHex
    if a.length ≠ b.length then .ok false
    else
      match timingSafeEqual a b with
      | .error e => .error e
      | .ok eq =>
        if !eq then .ok false
        else
          match jsonParse (b64urlDecodeStr payloadB64) with
          | none => .ok false
          | some payload =>
            if !truthyOpt (jsGet payload "shop") || !truthyOpt (jsGet payload "ts") then
              .ok false
            else if shopMismatch (jsGet payload "shop") expectedShop then .ok false
            else if ageExceeded now (jsGet payload "ts") maxAgeMs then .ok false
            else .ok true
  | _ => .ok false

/-! ## Embedded source: `verifyShopifyHmac` (`src/server.js` lines 121-134)
and the inline HMAC check of `src/auth.js` lines 44-47 -/

/-- The canonical message of `verifyShopifyHmac`, built exactly as the
code does: `Object.entries` of the query (keys unique), entries with key
`hmac` or `signature` dropped, the rest sorted by the raw-key comparator,
each rendered `k=encodeURIComponent(Array.isArray(v) ? v.join(",") : v)`,
joined with `&`. -/
def serverHmacMessage (q : List (String × QVal)) : String :=
  String.intercalate "&"
    ((jsSortBy (fun a b => jsStrCompare a.1 b.1)
      (q.filter (fun kv => !(kv.1 == "hmac") && !(kv.1 == "signature")))).map
      (fun kv => kv.1 ++ "=" ++ encodeURIComponent (qvalToString kv.2)))

/-- `Buffer.from(x, "utf8")` on a query value or a missing one: on
`undefined` it throws a `TypeError`; a string gives its UTF-8 bytes; an
array is read as an array of octet values (`ToNumber` each entry, wrap to
a byte, NaN to 0). -/
def bufferFromQVal : Option QVal → Except Unit (List Nat)
  | none => .error ()
  | some (.str s) => .ok (utf8 s)
  | some (.arr vs) => .ok (vs.map (fun v =>
      match jsStringToNumber v with
      | some n => (n % 256).toNat
      | none => 0))

/-- Models `verifyShopifyHmac(queryObj, apiSecret)`: the hex HMAC of the
canonical message against `queryObj.hmac`, length check short-circuiting
the timing-safe comparison. -/
def verifyShopifyHmacE (hmacHex : String → String → String)
    (q : List (String × QVal)) (apiSecret : String) : Except Unit Bool :=
  let a := utf8 (hmacHex apiSecret (serverHmacMessage q))
  match bufferFromQVal (q.lookup "hmac") with
  | .error e => .error e
  | .ok b => if a.length = b.length then timingSafeEqual a b else .ok false

/-- The canonical message of the inline HMAC check in `src/auth.js` lines
44-45: built from the fixed object of the destructured fields `shop`,
`code`, `state`, `timestamp` (`Object.keys(params).sort()` is `code`,
`shop`, `state`, `timestamp`), each value rendered by the template
coercion, so a missing `timestamp` renders as `undefined`. -/
def authHmacMessage (q : List (String × QVal)) : String :=
  "code=" ++ jsTemplateOpt (q.lookup "code") ++
  "&shop=" ++ jsTemplateOpt (q.lookup "shop") ++
  "&state=" ++ jsTemplateOpt (q.lookup "state") ++
  "&timestamp=" ++ jsTemplateOpt (q.lookup "timestamp")

/-- The pass condition of `src/auth.js` line 47 (`generated !== hmac`
not taken): plain, not timing-safe, string strict equality; an array
`hmac` is an object and never strictly equal to the generated string. -/
def authHmacPasses (hmacHex : String → String → String) (apiSecret : String)
    (q : List (String × QVal)) : Bool :=
  match q.lookup "hmac" with
  | some (.str h) => hmacHex apiSecret (authHmacMessage q) == h
  | _ => false

/-! ## Embedded source: the result cache (`src/server.js` lines 33-35,
221-224 and 249) -/

/-- `TTL_MS = 60 * 1000` (`src/server.js` line 35). -/
def TTL_MS : Int := 60 * 1000

/-- `Map.prototype.set`: replace an existing key in place, else append. -/
def mapSet : List (String × α) → String → α → List (String × α)
  | [], k, v => [(k, v)]
  | (k0, v0) :: rest, k, v =>
    if k0 = k then (k0, v) :: rest else (k0, v0) :: mapSet rest k v

/-- `cache.get(cacheKey)` followed by the freshness test
`c && now - c.t < TTL_MS` (`src/server.js` lines 223-224): the cached
value when present and fresh, else nothing. -/
def cacheGetFresh (cache : List (String × (Int × α))) (now : Int) (key : String) : Option α :=
  match cache.lookup key with
  | none => none
  | some (t, v) => if now - t < TTL_MS then some v else none

/-- `cache.set(cacheKey, { t: now, v: payload })` (`src/server.js` line
249). -/
def cachePut (cache : List (String × (Int × α))) (key : String) (now : Int) (v : α) :
    List (String × (Int × α)) :=
  mapSet cache key (now, v)

/-! ## Embedded source: the nonce store of `src/auth.js` -/

/-- `/auth/install` writing `stateStore.set(state, Date.now())`
(`src/auth.js` lines 22-23); the random state is an input. -/
def stateStoreIssue (store : List (String × Int)) (state : String) (now : Int) :
    List (String × Int) :=
  mapSet store state now

/-- The membership check `stateStore.has(state)` of `/auth/callback`
(`src/auth.js` line 41). -/
def stateStoreRedeem (store : List (String × Int)) (state : String) : Bool :=
  (store.lookup state).isSome

/-- The requests of `src/auth.js` as they act on `stateStore` over the
process lifetime: each `/auth/install` adds one state; `/auth/callback`
only reads the map; no other code touches it. -/
inductive AuthEvent where
  | install (state : String) (now : Int)
  | callback

/-- Effect of one request on the nonce store. -/
def authStep (store : List (String × Int)) : AuthEvent → List (String × Int)
  | .install state now => stateStoreIssue store state now
  | .callback => store

/-! ## Embedded source: inventory levels post-processing
(`src/server.js` lines 27-31 and 238-246) -/

/-- One mapped level (`src/server.js` lines 239-243): the raw JSON values
of `location.id` and `location.name` (`none` models `undefined`), and
`available` after the `?? 0` default. -/
structure Level where
  locationId : Option Js
  location : Option Js
  available : Js

/-- `allowSet.has(l.locationId)`: the `Set` built from the comma-split
environment list holds strings, so membership holds exactly for those
strings. -/
def allowSetHas (allow : List String) (v : Option Js) : Bool :=
  match v with
  | some (.str s) => allow.contains s
  | _ => false

/-- The post-processing of `src/server.js` lines 245-246:
`if (allowSet.size) levels = levels.filter(...)` then
`levels.sort((a, b) => a.location.localeCompare(b.location))`.  The
locale-aware `localeCompare` lives in the runtime's ICU data, outside
this repository, so the comparator is a parameter `cmp`. -/
def postProcess (cmp : Option Js → Option Js → Int) (allow : List String)
    (levels : List Level) : List Level :=
  let filtered :=
    if allow.length ≠ 0 then levels.filter (fun l => allowSetHas allow l.locationId)
    else levels
  jsSortBy (fun a b => cmp a.location b.location) filtered

/-- Optional chaining `o?.k` over a possibly-undefined receiver. -/
def optChain (o : Option Js) (k : String) : Option Js :=
  match o with
  | none => none
  | some v => jsGet v k

/-- Plain-dot access `o.k` over a possibly-undefined receiver: throws on
`undefined` and on `null`. -/
def dotGet (o : Option Js) (k : String) : Except Unit (Option Js) :=
  match o with
  | none => .error ()
  | some .null => .error ()
  | some (.obj ms) => .ok (ms.lookup k)
  | some _ => .ok none

/-- The arrow body of `edges?.map((e) => ...)` (`src/server.js` lines
239-243): plain-dot accesses that can throw, and the `?? 0` default for
`available`. -/
def levelOfEdge (e : Js) : Except Unit Level := do
  let node ← dotGet (some e) "node"
  let location ← dotGet node "location"
  let locId ← dotGet location "id"
  let locName ← dotGet location "name"
  let avail ← dotGet node "available"
  let availVal := match avail with
    | none => Js.num 0
    | some .null => Js.num 0
    | some v => v
  pure ⟨locId, locName, availVal⟩

/-- The whole mapping expression
`d2?.inventoryItem?.inventoryLevels?.edges?.map((e) => ...) || []`:
an absent or `null` `edges` gives `[]`; a non-array `edges` has no `map`
method and throws; per-element throws propagate. -/
def levelsOfD2 (d2 : Js) : Except Unit (List Level) :=
  match optChain (optChain (optChain (some d2) "inventoryItem") "inventoryLevels") "edges" with
  | none => .ok []
  | some .null => .ok []
  | some (.arr es) => es.mapM levelOfEdge
  | some _ => .error ()

/-! ## Embedded source: the `/proxy` handler (`src/server.js` lines
210-255)

The two `adminGraphQL` calls are modelled by the oracle inputs `r1`
(`VariantToItem`) and `r2` (`ItemLevels`): `.error` stands for any throw
inside `adminGraphQL` (missing `SHOPIFY_SHOP` or token configuration, a
network failure, a non-ok status or a GraphQL `errors` payload), `.ok d`
for the returned `json.data`. -/

/-- Result of one `/proxy` request: the HTTP status, the `levels` payload
when the response carries one, the cache afterwards, and how many
upstream calls were issued. -/
structure ProxyOutcome where
  status : Nat
  levelsBody : Option (List Level)
  cacheAfter : List (String × (Int × List Level))
  upstreamCalls : Nat

/-- Models the `/proxy` handler.  `shopDomain` is the
`x-shopify-shop-domain` header; `variantId` is `req.query.variant_id`;
`now` is `Date.now()` at line 222 (the handler body is modelled as
atomic).  An array `variant_id` reaches `.startsWith` (not a function on
arrays) only after the cache miss, as in the source. -/
def proxyHandler (SHOP : String) (allow : List String)
    (cmp : Option Js → Option Js → Int)
    (cache : List (String × (Int × List Level))) (now : Int)
    (shopDomain : Option String) (variantId : Option QVal)
    (r1 r2 : Except Unit Js) : ProxyOutcome :=
  match shopDomain with
  | none => ⟨403, none, cache, 0⟩
  | some d =>
    if d == "" || !(d == SHOP) then ⟨403, none, cache, 0⟩
    else
      match variantId with
      | none => ⟨400, none, cache, 0⟩
      | some vid =>
        if !qvalTruthy vid then ⟨400, none, cache, 0⟩
        else
          let cacheKey := "levels:" ++ qvalToString vid
          match cacheGetFresh cache now cacheKey with
          | some v => ⟨200, some v, cache, 0⟩
          | none =>
            match vid with
            | .arr _ => ⟨500, none, cache, 0⟩
            | .str s =>
              let _variantGID :=
                if s.startsWith "gid://" then s
                else "gid://shopify/ProductVariant/" ++ s
              match r1 with
              | .error _ => ⟨500, none, cache, 1⟩
              | .ok d1 =>
                let itemId :=
                  optChain (optChain (optChain (some d1) "productVariant") "inventoryItem") "id"
                if !truthyOpt itemId then ⟨200, some [], cache, 1⟩
                else
                  match r2 with
                  | .error _ => ⟨500, none, cache, 2⟩
                  | .ok d2 =>
                    match levelsOfD2 d2 with
                    | .error _ => ⟨500, none, cache, 2⟩
                    | .ok ls =>
                      let ls2 := postProcess cmp allow ls
                      ⟨200, some ls2, cachePut cache cacheKey now ls2, 2⟩

/-! ## Embedded source: the `/auth/callback` handler of `src/server.js`
(lines 160-207)

The token-exchange `fetch` plus `await tokenRes.json()` is the oracle
input `tokenExchange`: `.error` stands for a network or JSON-body throw,
`.ok (resOk, body)` for a response with `tokenRes.ok = resOk` parsed to
`body`.  The surrounding `try/catch` turns every throw into a 500. -/

/-- Result of one `/auth/callback` request: the HTTP status and the
`ADMIN_TOKEN` process variable afterwards (`none` = still unset). -/
structure CallbackOutcome where
  status : Nat
  adminToken : Option Js

/-- Models the `/auth/callback` handler of `src/server.js`. -/
def callbackHandler (hmacHex : String → String → String) (apiSecret : String)
    (adminToken : Option Js) (now : Int) (q : List (String × QVal))
    (tokenExchange : Except Unit (Bool × Js)) : CallbackOutcome :=
  let shopO := q.lookup "shop"
  let hmacO := q.lookup "hmac"
  let codeO := q.lookup "code"
  let stateO := q.lookup "state"
  if !qvalTruthyOpt shopO || !qvalTruthyOpt hmacO || !qvalTruthyOpt codeO ||
      !qvalTruthyOpt stateO then
    ⟨400, adminToken⟩
  else
    match verifyShopifyHmacE hmacHex q apiSecret with
    | .error _ => ⟨500, adminToken⟩
    | .ok false => ⟨400, adminToken⟩
    | .ok true =>
      match shopO, stateO with
      | some sh, some st =>
        match verifyStateTokenE hmacHex apiSecret now (qvalToString st) (some sh)
            stateTokenMaxAge with
        | .error _ => ⟨500, adminToken⟩
        | .ok false => ⟨400, adminToken⟩
        | .ok true =>
          match tokenExchange with
          | .error _ => ⟨500, adminToken⟩
          | .ok (resOk, body) =>
            if !resOk then ⟨500, adminToken⟩
            else
              match jsGetThrow body "access_token" with
              | .error _ => ⟨500, adminToken⟩
              | .ok tok =>
                if !truthyOpt tok then ⟨500, adminToken⟩
                else ⟨200, tok⟩
      | _, _ => ⟨400, adminToken⟩

/-! ## Spec-side canonical-message formulations (for claim C1) -/

/-- The single canonical message claim C1 describes for both verification
variants: drop the keys `hmac` and `signature`, sort the remaining entries
by raw key string, render each entry as `key=value` with a multi-valued
parameter joined by `,` (values otherwise unchanged), join the pairs with
`&`. -/
def claimHmacMessage (q : List (String × QVal)) : String :=
  String.intercalate "&"
    ((jsSortBy (fun a b => jsStrCompare a.1 b.1)
      (q.filter (fun kv => !(kv.1 == "hmac") && !(kv.1 == "signature")))).map
      (fun kv => kv.1 ++ "=" ++ qvalToString kv.2))

/-- Amended wording for `verifyShopifyHmac` of `src/server.js`: drop
`hmac` and `signature`, sort the remaining keys lexicographically by raw
key string, render each key as `key=encodeURIComponent(value)` with a
multi-valued parameter first joined by `,`, join with `&`. -/
def specServerMessage (q : List (String × QVal)) : String :=
  String.intercalate "&"
    ((jsSortBy jsStrCompare
      ((q.filter (fun kv => !(kv.1 == "hmac") && !(kv.1 == "signature"))).map Prod.fst)).map
      (fun k => k ++ "=" ++ encodeURIComponent (qvalToString ((q.lookup k).getD (.str "")))))

/-- Amended wording for the inline check of `src/auth.js`: the sorted keys
of the fixed object `\x7b shop, code, state, timestamp \x7d`, each rendered as
`key=value` by template coercion (an absent parameter renders as the word
`undefined`), joined with `&`; every other query parameter is ignored. -/
def specAuthMessage (q : List (String × QVal)) : String :=
  String.intercalate "&"
    ((jsSortBy jsStrCompare ["shop", "code", "state", "timestamp"]).map
      (fun k => k ++ "=" ++ jsTemplateOpt (q.lookup k)))

/-- The validity condition `verifyStateToken` actually decides, per the
amended wording of claim C3: the token splits on `.` into exactly two
pieces, the hex HMAC of the first equals the second (equal lengths
follow), the first base64url-decodes and JSON-parses, the payload's
`shop` and `ts` are truthy (not merely present), a truthy `expectedShop`
strictly equals `payload.shop`, and the age check
`now - ToNumber(ts) > maxAgeMs` does not fire (a non-numeric `ts` passes
it). -/
def specStateTokenValid (hmacHex : String → String → String) (apiSecret : String)
    (now : Int) (token : String) (expectedShop : Option QVal) (maxAgeMs : Int) : Prop :=
  ∃ p s payload,
    jsSplit '.' token = [p, s]
    ∧ hmacHex apiSecret p = s
    ∧ jsonParse (b64urlDecodeStr p) = some payload
    ∧ truthyOpt (jsGet payload "shop") = true
    ∧ truthyOpt (jsGet payload "ts") = true
    ∧ shopMismatch (jsGet payload "shop") expectedShop = false
    ∧ ageExceeded now (jsGet payload "ts") maxAgeMs = false

/-- The location ordering key of the sort comparator: the `location`
field of a mapped level holds the string `location.name` when the
upstream response carries one. -/
def locationKey : Option Js → String
  | some (.str s) => s
  | _ => ""

/-- A concrete instance of the `localeCompare`-shaped comparator: plain
UTF-16 lexicographic comparison of the location names (the locale-free
fallback ordering; `localeCompare` agrees with it on ASCII names such as
`Store` and `Warehouse`). -/
def locationNameCompare (a b : Option Js) : Int :=
  jsStrCompare (locationKey a) (locationKey b)

/-! ## Roundtrip facts about the byte codecs -/

theorem char_toNat_valid (c : Char) :
    c.toNat < 0xD800 ∨ (0xE000 ≤ c.toNat ∧ c.toNat < 0x110000) := by
  have h := c.valid
  unfold UInt32.isValidChar Nat.isValidChar at h
  have h2 : c.toNat = c.val.toNat := rfl
  rcases h with h | ⟨h1, h3⟩
  · left; omega
  · right; exact ⟨by omega, by omega⟩

theorem utf8Char_lt (c : Char) : ∀ b ∈ utf8Char c, b < 256 := by
  have hv := char_toNat_valid c
  intro b hb
  simp only [utf8Char] at hb
  split_ifs at hb <;> simp_all <;> omega

theorem utf8_lt (s : String) : ∀ b ∈ utf8 s, b < 256 := by
  intro b hb
  simp only [utf8, List.mem_flatten, List.mem_map] at hb
  obtain ⟨l, ⟨c, _, rfl⟩, hbl⟩ := hb
  exact utf8Char_lt c b hbl

theorem char_toNat_ofNat {n : Nat} (h : n.isValidChar) : (Char.ofNat n).toNat = n := by
  unfold Char.ofNat
  rw [dif_pos h]
  rfl

theorem utf8DecodeAux_congr :
    ∀ f1 f2 (l : List Nat), l.length ≤ f1 → l.length ≤ f2 →
      utf8DecodeAux f1 l = utf8DecodeAux f2 l
  | 0, f2, l, h1, _ => by
    have : l = [] := by cases l <;> simp_all
    subst this
    cases f2 <;> rfl
  | f1 + 1, f2, [], _, _ => by cases f2 <;> rfl
  | f1 + 1, 0, b1 :: r, _, h2 => by simp at h2
  | f1 + 1, f2 + 1, b1 :: r, h1, h2 => by
    simp only [utf8DecodeAux]
    have hd : (r.drop (utf8Step b1 r).2).length ≤ r.length := by
      simp [List.length_drop]
    simp only [List.length_cons] at h1 h2
    rw [utf8DecodeAux_congr f1 f2 _ (by omega) (by omega)]

theorem utf8Decode_nil : utf8Decode [] = [] := rfl

theorem utf8Decode_cons (b1 : Nat) (r : List Nat) :
    utf8Decode (b1 :: r) = (utf8Step b1 r).1 :: utf8Decode (r.drop (utf8Step b1 r).2) := by
  show utf8DecodeAux (r.length + 1) (b1 :: r) = _
  simp only [utf8DecodeAux]
  rw [utf8DecodeAux_congr r.length (r.drop (utf8Step b1 r).2).length _
    (by simp [List.length_drop]) (le_refl _)]
  rfl

theorem utf8Decode_utf8Char (c : Char) (bs : List Nat) :
    utf8Decode (utf8Char c ++ bs) = c :: utf8Decode bs := by
  have hv := char_toNat_valid c
  have hof := Char.ofNat_toNat c
  by_cases h1 : c.toNat < 0x80
  · have e : utf8Char c = [c.toNat] := by simp [utf8Char, h1]
    rw [e, List.cons_append, List.nil_append, utf8Decode_cons]
    have hstep : utf8Step c.toNat bs = (c, 0) := by
      unfold utf8Step
      rw [if_pos h1, hof]
    rw [hstep]
    simp
  · by_cases h2 : c.toNat < 0x800
    · have e : utf8Char c = [0xC0 + c.toNat / 0x40, 0x80 + c.toNat % 0x40] := by
        simp [utf8Char, h1, h2]
      rw [e, List.cons_append, List.cons_append, List.nil_append, utf8Decode_cons]
      have hstep : utf8Step (0xC0 + c.toNat / 0x40) ((0x80 + c.toNat % 0x40) :: bs)
          = (c, 1) := by
        have d1 : ¬ (0xC0 + c.toNat / 0x40 < 0x80) := by omega
        have d2 : (decide (0xC2 ≤ 0xC0 + c.toNat / 0x40) &&
            decide (0xC0 + c.toNat / 0x40 < 0xE0)) = true := by simp; omega
        have d3 : (decide (0x80 ≤ 0x80 + c.toNat % 0x40) &&
            decide (0x80 + c.toNat % 0x40 < 0xC0)) = true := by simp; omega
        have en : (0xC0 + c.toNat / 0x40 - 0xC0) * 0x40 + (0x80 + c.toNat % 0x40 - 0x80)
            = c.toNat := by omega
        simp only [utf8Step, d1, d2, d3, if_true, if_false, ite_true, ite_false, en, hof]
      rw [hstep]
      simp
    · by_cases h3 : c.toNat < 0x10000
      · have e : utf8Char c = [0xE0 + c.toNat / 0x1000, 0x80 + c.toNat / 0x40 % 0x40,
            0x80 + c.toNat % 0x40] := by
          simp [utf8Char, h1, h2, h3]
        rw [e, List.cons_append, List.cons_append, List.cons_append, List.nil_append,
          utf8Decode_cons]
        have hstep : utf8Step (0xE0 + c.toNat / 0x1000)
            ((0x80 + c.toNat / 0x40 % 0x40) :: (0x80 + c.toNat % 0x40) :: bs) = (c, 2) := by
          have d1 : ¬ (0xE0 + c.toNat / 0x1000 < 0x80) := by omega
          have d2 : (decide (0xC2 ≤ 0xE0 + c.toNat / 0x1000) &&
              decide (0xE0 + c.toNat / 0x1000 < 0xE0)) = false := by simp
          have d3 : (decide (0xE0 ≤ 0xE0 + c.toNat / 0x1000) &&
              decide (0xE0 + c.toNat / 0x1000 < 0xF0)) = true := by simp; omega
          have d4 : ((decide (0x80 ≤ 0x80 + c.toNat / 0x40 % 0x40) &&
              decide (0x80 + c.toNat / 0x40 % 0x40 < 0xC0)) &&
              (decide (0x80 ≤ 0x80 + c.toNat % 0x40) &&
              decide (0x80 + c.toNat % 0x40 < 0xC0))) = true := by simp; omega
          have en : (0xE0 + c.toNat / 0x1000 - 0xE0) * 0x1000 +
              (0x80 + c.toNat / 0x40 % 0x40 - 0x80) * 0x40 +
              (0x80 + c.toNat % 0x40 - 0x80) = c.toNat := by omega
          have d5 : (decide (0x800 ≤ c.toNat) &&
              (decide (c.toNat < 0xD800) || decide (0xE000 ≤ c.toNat))) = true := by
            simp; omega
          simp only [utf8Step, d1, d2, d3, d4, if_true, if_false, ite_true, ite_false,
            Bool.false_eq_true, en, d5, hof]
        rw [hstep]
        simp
      · have e : utf8Char c = [0xF0 + c.toNat / 0x40000, 0x80 + c.toNat / 0x1000 % 0x40,
            0x80 + c.toNat / 0x40 % 0x40, 0x80 + c.toNat % 0x40] := by
          simp [utf8Char, h1, h2, h3]
        have hlt : c.toNat < 0x110000 := by omega
        rw [e, List.cons_append, List.cons_append, List.cons_append, List.cons_append,
          List.nil_append, utf8Decode_cons]
        have hstep : utf8Step (0xF0 + c.toNat / 0x40000)
            ((0x80 + c.toNat / 0x1000 % 0x40) :: (0x80 + c.toNat / 0x40 % 0x40) ::
              (0x80 + c.toNat % 0x40) :: bs) = (c, 3) := by
          have d1 : ¬ (0xF0 + c.toNat / 0x40000 < 0x80) := by omega
          have d2 : (decide (0xC2 ≤ 0xF0 + c.toNat / 0x40000) &&
              decide (0xF0 + c.toNat / 0x40000 < 0xE0)) = false := by simp; try omega
          have d3 : (decide (0xE0 ≤ 0xF0 + c.toNat / 0x40000) &&
              decide (0xF0 + c.toNat / 0x40000 < 0xF0)) = false := by simp; try omega
          have d4 : (decide (0xF0 ≤ 0xF0 + c.toNat / 0x40000) &&
              decide (0xF0 + c.toNat / 0x40000 < 0xF8)) = true := by simp; omega
          have d5 : ((decide (0x80 ≤ 0x80 + c.toNat / 0x1000 % 0x40) &&
              decide (0x80 + c.toNat / 0x1000 % 0x40 < 0xC0)) &&
              ((decide (0x80 ≤ 0x80 + c.toNat / 0x40 % 0x40) &&
              decide (0x80 + c.toNat / 0x40 % 0x40 < 0xC0)) &&
              (decide (0x80 ≤ 0x80 + c.toNat % 0x40) &&
              decide (0x80 + c.toNat % 0x40 < 0xC0)))) = true := by simp; omega
          have en : (0xF0 + c.toNat / 0x40000 - 0xF0) * 0x40000 +
              (0x80 + c.toNat / 0x1000 % 0x40 - 0x80) * 0x1000 +
              (0x80 + c.toNat / 0x40 % 0x40 - 0x80) * 0x40 +
              (0x80 + c.toNat % 0x40 - 0x80) = c.toNat := by omega
          have d6 : (decide (0x10000 ≤ c.toNat) && decide (c.toNat < 0x110000)) = true := by
            simp; omega
          simp only [utf8Step, d1, d2, d3, d4, d5, if_true, if_false, ite_true, ite_false,
            Bool.false_eq_true, en, d6, hof]
        rw [hstep]
        simp

theorem utf8Decode_utf8 (s : String) : utf8Decode (utf8 s) = s.data := by
  suffices h : ∀ l : List Char, utf8Decode ((l.map utf8Char).flatten) = l from h s.data
  intro l
  induction l with
  | nil => exact utf8Decode_nil
  | cons c cs ih =>
    rw [List.map_cons, List.flatten_cons, utf8Decode_utf8Char, ih]

theorem utf8_injective {a b : String} (h : utf8 a = utf8 b) : a = b := by
  have ha := utf8Decode_utf8 a
  have hb := utf8Decode_utf8 b
  rw [h, hb] at ha
  cases a; cases b; simp_all

theorem b64DecChar_b64Char : ∀ n < 64, b64DecChar (b64Char n) = some n := by decide

theorem b64_bytes_roundtrip : ∀ bs : List Nat, (∀ b ∈ bs, b < 256) →
    b64DecodeSextets (b64Sextets (b64EncodeBytes bs)) = bs
  | [], _ => rfl
  | [b1], h => by
    have hb1 : b1 < 256 := h b1 (by simp)
    have e1 := b64DecChar_b64Char (b1 / 4) (by omega)
    have e2 := b64DecChar_b64Char (b1 % 4 * 16) (by omega)
    simp only [b64EncodeBytes, b64Sextets, List.filterMap_cons, e1, e2,
      List.filterMap_nil, b64DecodeSextets]
    simp only [List.cons.injEq, and_true]
    omega
  | [b1, b2], h => by
    have hb1 : b1 < 256 := h b1 (by simp)
    have hb2 : b2 < 256 := h b2 (by simp)
    have e1 := b64DecChar_b64Char (b1 / 4) (by omega)
    have e2 := b64DecChar_b64Char (b1 % 4 * 16 + b2 / 16) (by omega)
    have e3 := b64DecChar_b64Char (b2 % 16 * 4) (by omega)
    simp only [b64EncodeBytes, b64Sextets, List.filterMap_cons, e1, e2, e3,
      List.filterMap_nil, b64DecodeSextets]
    simp only [List.cons.injEq, and_true]
    constructor <;> omega
  | b1 :: b2 :: b3 :: r, h => by
    have hb1 : b1 < 256 := h b1 (by simp)
    have hb2 : b2 < 256 := h b2 (by simp)
    have hb3 : b3 < 256 := h b3 (by simp)
    have hr : ∀ b ∈ r, b < 256 := fun b hb => h b (by simp [hb])
    have e1 := b64DecChar_b64Char (b1 / 4) (by omega)
    have e2 := b64DecChar_b64Char (b1 % 4 * 16 + b2 / 16) (by omega)
    have e3 := b64DecChar_b64Char (b2 % 16 * 4 + b3 / 64) (by omega)
    have e4 := b64DecChar_b64Char (b3 % 64) (by omega)
    have ih := b64_bytes_roundtrip r hr
    simp only [b64EncodeBytes, b64Sextets, List.filterMap_cons, e1, e2, e3, e4] at *
    simp only [b64DecodeSextets, List.cons.injEq]
    refine ⟨by omega, by omega, by omega, ih⟩

theorem b64url_roundtrip (s : String) : b64urlDecodeStr (b64urlEncodeStr s) = s := by
  show String.mk (utf8Decode (b64DecodeSextets (b64Sextets
    (String.mk (b64EncodeBytes (utf8 s))).data))) = s
  rw [show (String.mk (b64EncodeBytes (utf8 s))).data = b64EncodeBytes (utf8 s) from rfl]
  rw [b64_bytes_roundtrip _ (utf8_lt s), utf8Decode_utf8]

theorem b64Char_ne_dot (n : Nat) : b64Char n ≠ '.' := by
  have hdot : ('.' : Char).toNat = 46 := rfl
  unfold b64Char
  split_ifs with h1 h2 h3 h4 <;> intro hc
  · have ht : (Char.ofNat (65 + n)).toNat = 65 + n :=
      char_toNat_ofNat (Or.inl (by omega))
    rw [hc, hdot] at ht
    omega
  · have ht : (Char.ofNat (97 + (n - 26))).toNat = 97 + (n - 26) :=
      char_toNat_ofNat (Or.inl (by omega))
    rw [hc, hdot] at ht
    omega
  · have ht : (Char.ofNat (48 + (n - 52))).toNat = 48 + (n - 52) :=
      char_toNat_ofNat (Or.inl (by omega))
    rw [hc, hdot] at ht
    omega
  · simp at hc
  · simp at hc

theorem b64EncodeBytes_ne_dot (bs : List Nat) : ∀ c ∈ b64EncodeBytes bs, c ≠ '.' := by
  induction bs using b64EncodeBytes.induct with
  | case1 => simp [b64EncodeBytes]
  | case2 b1 =>
    intro c hc
    simp only [b64EncodeBytes, List.mem_cons, List.not_mem_nil, or_false] at hc
    rcases hc with rfl | rfl <;> exact b64Char_ne_dot _
  | case3 b1 b2 =>
    intro c hc
    simp only [b64EncodeBytes, List.mem_cons, List.not_mem_nil, or_false] at hc
    rcases hc with rfl | rfl | rfl <;> exact b64Char_ne_dot _
  | case4 b1 b2 b3 r ih =>
    intro c hc
    simp only [b64EncodeBytes, List.mem_cons] at hc
    rcases hc with rfl | rfl | rfl | rfl | h
    · exact b64Char_ne_dot _
    · exact b64Char_ne_dot _
    · exact b64Char_ne_dot _
    · exact b64Char_ne_dot _
    · exact ih c h

theorem parseStringBodyAux_congr :
    ∀ f1 f2 (acc l : List Char), l.length ≤ f1 → l.length ≤ f2 →
      parseStringBodyAux f1 acc l = parseStringBodyAux f2 acc l
  | 0, f2, acc, l, h1, _ => by
    have : l = [] := by cases l <;> simp_all
    subst this
    cases f2 <;> rfl
  | f1 + 1, f2, acc, [], _, _ => by cases f2 <;> rfl
  | f1 + 1, 0, acc, c :: rest, _, h2 => by simp at h2
  | f1 + 1, f2 + 1, acc, c :: rest, h1, h2 => by
    simp only [parseStringBodyAux, List.length_cons] at h1 h2 ⊢
    split
    · rfl
    · split
      · split
        · rename_i e k heq
          have hd : (rest.drop k).length ≤ rest.length := by simp [List.length_drop]
          rw [parseStringBodyAux_congr f1 f2 _ _ (by omega) (by omega)]
        · rfl
      · split
        · rfl
        · rw [parseStringBodyAux_congr f1 f2 _ _ (by omega) (by omega)]

theorem parseStringBody_nil (acc : List Char) : parseStringBody acc [] = none := rfl

theorem parseStringBody_cons (acc : List Char) (c : Char) (rest : List Char) :
    parseStringBody acc (c :: rest) =
      (if c = '"' then some (String.mk acc.reverse, rest)
       else if c = '\\' then
         match unescapeStep rest with
         | some (e, k) => parseStringBody (e :: acc) (rest.drop k)
         | none => none
       else if c.toNat < 0x20 then none
       else parseStringBody (c :: acc) rest) := by
  show parseStringBodyAux (rest.length + 1) acc (c :: rest) = _
  simp only [parseStringBodyAux]
  split
  · rfl
  · split
    · split
      · rename_i e k heq
        exact parseStringBodyAux_congr _ _ _ _ (by simp [List.length_drop]) (le_refl _)
      · rfl
    · split
      · rfl
      · exact parseStringBodyAux_congr _ _ _ _ (by omega) (le_refl _)

/-! ## Printer / parser roundtrip lemmas, targeted at the state-token
payload shape -/

theorem hexVal_hexDigit : ∀ n < 16, hexVal (hexDigit n) = some n := by decide

theorem skipWs_not_ws {c : Char} (h : isJsonWs c = false) (l : List Char) :
    skipWs (c :: l) = c :: l := by
  simp [skipWs, h]

theorem string_mk_data (s : String) : String.mk s.data = s := rfl

theorem parseStringBody_escape (cs : List Char) :
    ∀ (acc rest : List Char),
      parseStringBody acc ((cs.map escapeChar).flatten ++ '"' :: rest)
        = some (String.mk (acc.reverse ++ cs), rest) := by
  induction cs with
  | nil =>
    intro acc rest
    rw [List.map_nil, List.flatten_nil, List.nil_append, parseStringBody_cons]
    simp
  | cons c cs ih =>
    intro acc rest
    rw [List.map_cons, List.flatten_cons, List.append_assoc]
    have hrec : parseStringBody (c :: acc) ((cs.map escapeChar).flatten ++ '"' :: rest)
        = some (String.mk (acc.reverse ++ c :: cs), rest) := by
      rw [ih]
      have : (c :: acc).reverse ++ cs = acc.reverse ++ c :: cs := by simp
      rw [this]
    by_cases h1 : c = '"'
    · subst h1
      have he : escapeChar '"' = ['\\', '"'] := by simp [escapeChar]
      rw [he, List.cons_append, List.cons_append, List.nil_append, parseStringBody_cons]
      have hu : unescapeStep ('"' :: ((cs.map escapeChar).flatten ++ '"' :: rest))
          = some ('"', 1) := by simp [unescapeStep, unescapeChar]
      simp [hu, hrec]
    · by_cases h2 : c = '\\'
      · subst h2
        have he : escapeChar '\\' = ['\\', '\\'] := by simp [escapeChar]
        rw [he, List.cons_append, List.cons_append, List.nil_append, parseStringBody_cons]
        have hu : unescapeStep ('\\' :: ((cs.map escapeChar).flatten ++ '"' :: rest))
            = some ('\\', 1) := by simp [unescapeStep, unescapeChar]
        simp [hu, hrec]
      · by_cases h3 : c = Char.ofNat 8
        · subst h3
          have he : escapeChar (Char.ofNat 8) = ['\\', 'b'] := by simp [escapeChar]
          rw [he, List.cons_append, List.cons_append, List.nil_append, parseStringBody_cons]
          have hu : unescapeStep ('b' :: ((cs.map escapeChar).flatten ++ '"' :: rest))
              = some (Char.ofNat 8, 1) := by simp [unescapeStep, unescapeChar]
          simp [hu, hrec]
        · by_cases h4 : c = Char.ofNat 9
          · subst h4
            have he : escapeChar (Char.ofNat 9) = ['\\', 't'] := by simp [escapeChar]
            rw [he, List.cons_append, List.cons_append, List.nil_append, parseStringBody_cons]
            have hu : unescapeStep ('t' :: ((cs.map escapeChar).flatten ++ '"' :: rest))
                = some (Char.ofNat 9, 1) := by simp [unescapeStep, unescapeChar]
            simp [hu, hrec]
          · by_cases h5 : c = Char.ofNat 10
            · subst h5
              have he : escapeChar (Char.ofNat 10) = ['\\', 'n'] := by simp [escapeChar]
              rw [he, List.cons_append, List.cons_append, List.nil_append,
                parseStringBody_cons]
              have hu : unescapeStep ('n' :: ((cs.map escapeChar).flatten ++ '"' :: rest))
                  = some (Char.ofNat 10, 1) := by simp [unescapeStep, unescapeChar]
              simp [hu, hrec]
            · by_cases h6 : c = Char.ofNat 12
              · subst h6
                have he : escapeChar (Char.ofNat 12) = ['\\', 'f'] := by simp [escapeChar]
                rw [he, List.cons_append, List.cons_append, List.nil_append,
                  parseStringBody_cons]
                have hu : unescapeStep ('f' :: ((cs.map escapeChar).flatten ++ '"' :: rest))
                    = some (Char.ofNat 12, 1) := by simp [unescapeStep, unescapeChar]
                simp [hu, hrec]
              · by_cases h7 : c = Char.ofNat 13
                · subst h7
                  have he : escapeChar (Char.ofNat 13) = ['\\', 'r'] := by
                    simp [escapeChar]
                  rw [he, List.cons_append, List.cons_append, List.nil_append,
                    parseStringBody_cons]
                  have hu : unescapeStep ('r' :: ((cs.map escapeChar).flatten ++ '"' :: rest))
                      = some (Char.ofNat 13, 1) := by simp [unescapeStep, unescapeChar]
                  simp [hu, hrec]
                · by_cases h8 : c.toNat < 0x20
                  · have he : escapeChar c =
                        ['\\', 'u', '0', '0', hexDigit (c.toNat / 16), hexDigit (c.toNat % 16)] := by
                      simp [escapeChar, h1, h2, h3, h4, h5, h6, h7, h8]
                    rw [he]
                    simp only [List.cons_append, List.nil_append]
                    rw [parseStringBody_cons]
                    have hu : unescapeStep ('u' :: '0' :: '0' :: hexDigit (c.toNat / 16) ::
                        hexDigit (c.toNat % 16) :: ((cs.map escapeChar).flatten ++ '"' :: rest))
                        = some (c, 5) := by
                      have e1 : hexVal '0' = some 0 := by decide
                      have e2 := hexVal_hexDigit (c.toNat / 16) (by omega)
                      have e3 := hexVal_hexDigit (c.toNat % 16) (by omega)
                      simp only [unescapeStep, e1, e2, e3]
                      have en : ((0 * 16 + 0) * 16 + c.toNat / 16) * 16 + c.toNat % 16
                          = c.toNat := by omega
                      rw [en]
                      rw [if_neg (by simp; omega), Char.ofNat_toNat]
                    simp [hu, hrec]
                  · have he : escapeChar c = [c] := by
                      simp [escapeChar, h1, h2, h3, h4, h5, h6, h7, h8]
                    rw [he, List.cons_append, List.nil_append, parseStringBody_cons]
                    rw [if_neg h1, if_neg h2, if_neg h8]
                    exact hrec

theorem parseStringBody_escapeString (s : String) (rest : List Char) :
    parseStringBody [] ((s.data.map escapeChar).flatten ++ '"' :: rest)
      = some (s, rest) := by
  rw [parseStringBody_escape]
  simp [string_mk_data]

theorem char_ne_of_toNat_ne {a b : Char} (h : a.toNat ≠ b.toNat) : a ≠ b :=
  fun he => h (congrArg Char.toNat he)

theorem natDigitsRevAux_congr :
    ∀ f1 f2 n, n + 1 ≤ f1 → n + 1 ≤ f2 → natDigitsRevAux f1 n = natDigitsRevAux f2 n
  | 0, _, _, h1, _ => by omega
  | _ + 1, 0, _, _, h2 => by omega
  | f1 + 1, f2 + 1, n, h1, h2 => by
    simp only [natDigitsRevAux]
    split
    · rfl
    · rename_i h10
      rw [natDigitsRevAux_congr f1 f2 (n / 10) (by omega) (by omega)]

theorem natDigitsRev_eq (n : Nat) :
    natDigitsRev n =
      (if n < 10 then [Char.ofNat (48 + n)]
       else Char.ofNat (48 + n % 10) :: natDigitsRev (n / 10)) := by
  show natDigitsRevAux (n + 1) n = _
  simp only [natDigitsRevAux]
  split
  · rfl
  · rename_i h10
    rw [natDigitsRevAux_congr n (n / 10 + 1) (n / 10) (by omega) (by omega)]
    rfl

theorem natDigitsRev_digits (n : Nat) : ∀ c ∈ natDigitsRev n, 48 ≤ c.toNat ∧ c.toNat ≤ 57 := by
  induction n using Nat.strong_induction_on with
  | _ n ih =>
    by_cases h : n < 10
    · rw [natDigitsRev_eq, if_pos h]
      intro c hc
      simp only [List.mem_singleton] at hc
      subst hc
      rw [char_toNat_ofNat (Or.inl (by omega))]
      omega
    · rw [natDigitsRev_eq, if_neg h]
      intro c hc
      rcases List.mem_cons.mp hc with rfl | hc2
      · rw [char_toNat_ofNat (Or.inl (by omega))]
        omega
      · exact ih (n / 10) (by omega) c hc2

theorem natDigitsRev_foldr (n : Nat) :
    (natDigitsRev n).foldr (fun c a => a * 10 + (c.toNat - 48)) 0 = n := by
  induction n using Nat.strong_induction_on with
  | _ n ih =>
    by_cases h : n < 10
    · rw [natDigitsRev_eq, if_pos h]
      simp only [List.foldr_cons, List.foldr_nil]
      rw [char_toNat_ofNat (Or.inl (by omega))]
      omega
    · rw [natDigitsRev_eq, if_neg h]
      simp only [List.foldr_cons]
      rw [ih (n / 10) (by omega), char_toNat_ofNat (Or.inl (by omega))]
      omega

theorem natToString_data (n : Nat) : (natToString n).data = (natDigitsRev n).reverse := rfl

theorem digitsVal_natToString (n : Nat) : digitsVal (natToString n).data = n := by
  rw [natToString_data]
  unfold digitsVal
  rw [List.foldl_reverse]
  exact natDigitsRev_foldr n

theorem natToString_digits (n : Nat) :
    ∀ c ∈ (natToString n).data, 48 ≤ c.toNat ∧ c.toNat ≤ 57 := by
  rw [natToString_data]
  intro c hc
  exact natDigitsRev_digits n c (List.mem_reverse.mp hc)

theorem natToString_head (n : Nat) (h : 1 ≤ n) :
    ∃ d ds, (natToString n).data = d :: ds ∧ d ≠ '0' := by
  rw [natToString_data]
  induction n using Nat.strong_induction_on with
  | _ n ih =>
    by_cases h10 : n < 10
    · rw [natDigitsRev_eq, if_pos h10]
      refine ⟨Char.ofNat (48 + n), [], rfl, ?_⟩
      apply char_ne_of_toNat_ne
      rw [char_toNat_ofNat (Or.inl (by omega))]
      show 48 + n ≠ 48
      omega
    · rw [natDigitsRev_eq, if_neg h10]
      obtain ⟨d, ds, hds, hd0⟩ := ih (n / 10) (by omega) (by omega)
      rw [List.reverse_cons, hds]
      exact ⟨d, ds ++ [Char.ofNat (48 + n % 10)], by simp, hd0⟩

theorem natToString_ne_nil (n : Nat) : (natToString n).data ≠ [] := by
  rw [natToString_data]
  simp only [ne_eq, List.reverse_eq_nil_iff]
  by_cases h : n < 10
  · rw [natDigitsRev_eq, if_pos h]
    simp
  · rw [natDigitsRev_eq, if_neg h]
    simp

theorem takeDigits_append (ds rest : List Char)
    (hds : ∀ c ∈ ds, 48 ≤ c.toNat ∧ c.toNat ≤ 57)
    (hrest : ∀ c, rest.head? = some c → ¬(48 ≤ c.toNat ∧ c.toNat ≤ 57)) :
    takeDigits (ds ++ rest) = (ds, rest) := by
  induction ds with
  | nil =>
    rw [List.nil_append]
    cases rest with
    | nil => rfl
    | cons c r =>
      have hc := hrest c rfl
      rw [takeDigits, if_neg (by simp; omega)]
  | cons d ds ih =>
    have hd := hds d (by simp)
    rw [List.cons_append, takeDigits, if_pos (by simp; omega)]
    rw [ih (fun c hc => hds c (by simp [hc]))]

theorem parseIntBody_natToString (n : Nat) (rest : List Char)
    (hrest : ∀ c, rest.head? = some c →
      ¬(48 ≤ c.toNat ∧ c.toNat ≤ 57) ∧ c ≠ '.' ∧ c ≠ 'e' ∧ c ≠ 'E') :
    parseIntBody ((natToString n).data ++ rest) = some (n, rest) := by
  rw [parseIntBody, takeDigits_append _ _ (natToString_digits n)
    (fun c hc => (hrest c hc).1)]
  have hd : ∃ d ds, (natToString n).data = d :: ds ∧ (d = '0' → ds = []) := by
    by_cases h : 1 ≤ n
    · obtain ⟨d, ds, hds, hd0⟩ := natToString_head n h
      exact ⟨d, ds, hds, fun h0 => absurd h0 hd0⟩
    · have : n = 0 := by omega
      subst this
      exact ⟨'0', [], rfl, fun _ => rfl⟩
  obtain ⟨d, ds, hds, hd0⟩ := hd
  rw [hds]
  have hcond : (decide (d = '0') && decide (ds ≠ [])) = false := by
    by_cases h0 : d = '0'
    · simp [h0, hd0 h0]
    · simp [h0]
  have hval : digitsVal (d :: ds) = n := by
    rw [← hds]
    exact digitsVal_natToString n
  cases rest with
  | nil =>
    simp only [hcond, Bool.false_eq_true, if_false, hval]
  | cons c r =>
    have hc := hrest c rfl
    simp only [hcond, Bool.false_eq_true, if_false]
    rw [if_neg (by simp [hc.2.1, hc.2.2.1, hc.2.2.2]), hval]

theorem escapeString_data (s : String) :
    (escapeString s).data = '"' :: ((s.data.map escapeChar).flatten ++ ['"']) := by
  show (("\"" : String) ++ String.mk ((s.data.map escapeChar).flatten) ++ "\"").data = _
  rw [String.data_append, String.data_append]
  rfl

theorem digit_not_ws {c : Char} (h48 : 48 ≤ c.toNat) (h57 : c.toNat ≤ 57) :
    isJsonWs c = false := by
  have e1 : (' ').toNat = 32 := rfl
  have e2 : (Char.ofNat 9).toNat = 9 := rfl
  have e3 : (Char.ofNat 10).toNat = 10 := rfl
  have e4 : (Char.ofNat 13).toNat = 13 := rfl
  simp only [isJsonWs, Bool.or_eq_false_iff, decide_eq_false_iff_not]
  refine ⟨⟨⟨?_, ?_⟩, ?_⟩, ?_⟩ <;> (apply char_ne_of_toNat_ne; omega)

theorem digit_ne_heads {c : Char} (h48 : 48 ≤ c.toNat) (h57 : c.toNat ≤ 57) :
    c ≠ 'n' ∧ c ≠ 't' ∧ c ≠ 'f' ∧ c ≠ '"' ∧ c ≠ '[' ∧ c ≠ '{' ∧ c ≠ '-' := by
  have e1 : ('n').toNat = 110 := rfl
  have e2 : ('t').toNat = 116 := rfl
  have e3 : ('f').toNat = 102 := rfl
  have e4 : ('"').toNat = 34 := rfl
  have e5 : ('[').toNat = 91 := rfl
  have e6 : ('{').toNat = 123 := rfl
  have e7 : ('-').toNat = 45 := rfl
  refine ⟨?_, ?_, ?_, ?_, ?_, ?_, ?_⟩ <;> (apply char_ne_of_toNat_ne; omega)

theorem parseValue_strLit (f : Nat) (s : String) (rest : List Char) :
    parseValue (f + 1) ('"' :: ((s.data.map escapeChar).flatten ++ '"' :: rest))
      = some (.str s, rest) := by
  have hws : skipWs ('"' :: ((s.data.map escapeChar).flatten ++ '"' :: rest))
      = '"' :: ((s.data.map escapeChar).flatten ++ '"' :: rest) :=
    skipWs_not_ws (by decide) _
  simp only [parseValue, hws]
  rw [parseStringBody_escapeString]
  simp

theorem parseValue_int (f : Nat) (t : Int) (rest : List Char)
    (hrest : ∀ c, rest.head? = some c →
      ¬(48 ≤ c.toNat ∧ c.toNat ≤ 57) ∧ c ≠ '.' ∧ c ≠ 'e' ∧ c ≠ 'E') :
    parseValue (f + 1) ((intToString t).data ++ rest) = some (.num t, rest) := by
  by_cases hneg : t < 0
  · have hdata : (intToString t).data ++ rest = '-' :: ((natToString t.natAbs).data ++ rest) := by
      rw [show intToString t = "-" ++ natToString t.natAbs from by rw [intToString, if_pos hneg]]
      rw [String.data_append]
      simp
    rw [hdata]
    have hws : skipWs ('-' :: ((natToString t.natAbs).data ++ rest))
        = '-' :: ((natToString t.natAbs).data ++ rest) := skipWs_not_ws (by decide) _
    simp only [parseValue, hws]
    rw [parseIntBody_natToString _ _ hrest]
    have he : (-(t.natAbs : Int)) = t := by omega
    simp [he]
    rw [abs_of_neg hneg]
    omega
  · rw [show intToString t = natToString t.natAbs from by rw [intToString, if_neg hneg]]
    obtain ⟨d, ds, hds⟩ : ∃ d ds, (natToString t.natAbs).data = d :: ds := by
      cases hcase : (natToString t.natAbs).data with
      | nil => exact absurd hcase (natToString_ne_nil _)
      | cons d ds => exact ⟨d, ds, rfl⟩
    have hdig := natToString_digits t.natAbs d (by rw [hds]; simp)
    rw [hds, List.cons_append]
    have hws : skipWs (d :: (ds ++ rest)) = d :: (ds ++ rest) :=
      skipWs_not_ws (digit_not_ws hdig.1 hdig.2) _
    simp only [parseValue, hws]
    obtain ⟨hn, ht, hf, hq, hb, hc, hm⟩ := digit_ne_heads hdig.1 hdig.2
    rw [if_neg hn, if_neg ht, if_neg hf, if_neg hq, if_neg hb, if_neg hc, if_neg hm,
      if_pos (by simp; omega)]
    rw [show d :: (ds ++ rest) = (d :: ds) ++ rest from rfl, ← hds]
    rw [parseIntBody_natToString _ _ hrest]
    have he : ((t.natAbs : Nat) : Int) = t := by omega
    simp [he]

theorem comma_boundary (cont : List Char) :
    ∀ c, (',' :: cont).head? = some c →
      ¬(48 ≤ c.toNat ∧ c.toNat ≤ 57) ∧ c ≠ '.' ∧ c ≠ 'e' ∧ c ≠ 'E' := by
  intro c hc
  simp only [List.head?_cons, Option.some.injEq] at hc
  subst hc
  refine ⟨by decide, by decide, by decide, by decide⟩

theorem parseMembers_str_comma (f : Nat) (k vs : String) (cont : List Char)
    (acc : List (String × Js)) :
    parseMembers (f + 2) ('"' :: ((k.data.map escapeChar).flatten ++ '"' :: ':' ::
      ('"' :: ((vs.data.map escapeChar).flatten ++ '"' :: ',' :: cont)))) acc
      = parseMembers (f + 1) cont (jsUpsert acc k (.str vs)) := by
  have hA := parseStringBody_escapeString k
    (':' :: ('"' :: ((vs.data.map escapeChar).flatten ++ '"' :: ',' :: cont)))
  have hB := parseValue_strLit f vs (',' :: cont)
  have hws1 : skipWs ('"' :: ((k.data.map escapeChar).flatten ++ '"' :: ':' ::
      ('"' :: ((vs.data.map escapeChar).flatten ++ '"' :: ',' :: cont))))
      = '"' :: ((k.data.map escapeChar).flatten ++ '"' :: ':' ::
      ('"' :: ((vs.data.map escapeChar).flatten ++ '"' :: ',' :: cont))) :=
    skipWs_not_ws (by decide) _
  have hws2 : skipWs (':' :: ('"' :: ((vs.data.map escapeChar).flatten ++ '"' :: ',' :: cont)))
      = ':' :: ('"' :: ((vs.data.map escapeChar).flatten ++ '"' :: ',' :: cont)) :=
    skipWs_not_ws (by decide) _
  have hws3 : skipWs (',' :: cont) = ',' :: cont := skipWs_not_ws (by decide) _
  simp only [parseMembers, hws1]
  simp [hA, hB, hws2, hws3]

theorem parseMembers_str_last (f : Nat) (k vs : String) (cont : List Char)
    (acc : List (String × Js)) :
    parseMembers (f + 2) ('"' :: ((k.data.map escapeChar).flatten ++ '"' :: ':' ::
      ('"' :: ((vs.data.map escapeChar).flatten ++ '"' :: '}' :: cont)))) acc
      = some (jsUpsert acc k (.str vs), cont) := by
  have hA := parseStringBody_escapeString k
    (':' :: ('"' :: ((vs.data.map escapeChar).flatten ++ '"' :: '}' :: cont)))
  have hB := parseValue_strLit f vs ('}' :: cont)
  have hws1 : skipWs ('"' :: ((k.data.map escapeChar).flatten ++ '"' :: ':' ::
      ('"' :: ((vs.data.map escapeChar).flatten ++ '"' :: '}' :: cont))))
      = '"' :: ((k.data.map escapeChar).flatten ++ '"' :: ':' ::
      ('"' :: ((vs.data.map escapeChar).flatten ++ '"' :: '}' :: cont))) :=
    skipWs_not_ws (by decide) _
  have hws2 : skipWs (':' :: ('"' :: ((vs.data.map escapeChar).flatten ++ '"' :: '}' :: cont)))
      = ':' :: ('"' :: ((vs.data.map escapeChar).flatten ++ '"' :: '}' :: cont)) :=
    skipWs_not_ws (by decide) _
  have hws3 : skipWs ('}' :: cont) = '}' :: cont := skipWs_not_ws (by decide) _
  simp only [parseMembers, hws1]
  simp [hA, hB, hws2, hws3]

theorem parseMembers_int_comma (f : Nat) (k : String) (t : Int) (cont : List Char)
    (acc : List (String × Js)) :
    parseMembers (f + 2) ('"' :: ((k.data.map escapeChar).flatten ++ '"' :: ':' ::
      ((intToString t).data ++ ',' :: cont))) acc
      = parseMembers (f + 1) cont (jsUpsert acc k (.num t)) := by
  have hA := parseStringBody_escapeString k
    (':' :: ((intToString t).data ++ ',' :: cont))
  have hB := parseValue_int f t (',' :: cont) (comma_boundary cont)
  have hws1 : skipWs ('"' :: ((k.data.map escapeChar).flatten ++ '"' :: ':' ::
      ((intToString t).data ++ ',' :: cont)))
      = '"' :: ((k.data.map escapeChar).flatten ++ '"' :: ':' ::
      ((intToString t).data ++ ',' :: cont)) :=
    skipWs_not_ws (by decide) _
  have hws2 : skipWs (':' :: ((intToString t).data ++ ',' :: cont))
      = ':' :: ((intToString t).data ++ ',' :: cont) :=
    skipWs_not_ws (by decide) _
  have hws3 : skipWs (',' :: cont) = ',' :: cont := skipWs_not_ws (by decide) _
  simp only [parseMembers, hws1]
  simp [hA, hB, hws2, hws3]

theorem payload_data_shape (S nn : String) (t : Int) (rest : List Char) :
    (jsonStringify (.obj [("shop", Js.str S), ("ts", Js.num t),
      ("n", Js.str nn)])).data ++ rest = '{' :: ('"' :: (("shop".data.map escapeChar).flatten ++ '"' :: ':' :: ('"' :: ((S.data.map escapeChar).flatten ++ '"' :: ',' :: ('"' :: (("ts".data.map escapeChar).flatten ++ '"' :: ':' :: ((intToString t).data ++ ',' :: ('"' :: (("n".data.map escapeChar).flatten ++ '"' :: ':' :: ('"' :: ((nn.data.map escapeChar).flatten ++ '"' :: '}' :: rest))))))))))) := by
  have d1 : ("\x7b" : String).data = ['{'] := rfl
  have d2 : ("\x7d" : String).data = ['}'] := rfl
  have d3 : (":" : String).data = [':'] := rfl
  have d4 : ("," : String).data = [','] := rfl
  simp only [jsonStringify, stringifyMembers]
  simp [String.data_append, escapeString_data, d1, d2, d3, d4, List.append_assoc]

theorem parseValue_payloadObj (f : Nat) (S nn : String) (t : Int) (rest : List Char) :
    parseValue (f + 5)
      ((jsonStringify (.obj [("shop", Js.str S), ("ts", Js.num t), ("n", Js.str nn)])).data
        ++ rest)
      = some (.obj [("shop", Js.str S), ("ts", Js.num t), ("n", Js.str nn)], rest) := by
  have hs := payload_data_shape S nn t rest
  rw [hs]
  have hws0 : skipWs ('{' :: ('"' :: (("shop".data.map escapeChar).flatten ++ '"' :: ':' :: ('"' :: ((S.data.map escapeChar).flatten ++ '"' :: ',' :: ('"' :: (("ts".data.map escapeChar).flatten ++ '"' :: ':' :: ((intToString t).data ++ ',' :: ('"' :: (("n".data.map escapeChar).flatten ++ '"' :: ':' :: ('"' :: ((nn.data.map escapeChar).flatten ++ '"' :: '}' :: rest)))))))))))) = '{' :: ('"' :: (("shop".data.map escapeChar).flatten ++ '"' :: ':' :: ('"' :: ((S.data.map escapeChar).flatten ++ '"' :: ',' :: ('"' :: (("ts".data.map escapeChar).flatten ++ '"' :: ':' :: ((intToString t).data ++ ',' :: ('"' :: (("n".data.map escapeChar).flatten ++ '"' :: ':' :: ('"' :: ((nn.data.map escapeChar).flatten ++ '"' :: '}' :: rest))))))))))) := skipWs_not_ws (by decide) _
  have hwsr : skipWs ('"' :: (("shop".data.map escapeChar).flatten ++ '"' :: ':' :: ('"' :: ((S.data.map escapeChar).flatten ++ '"' :: ',' :: ('"' :: (("ts".data.map escapeChar).flatten ++ '"' :: ':' :: ((intToString t).data ++ ',' :: ('"' :: (("n".data.map escapeChar).flatten ++ '"' :: ':' :: ('"' :: ((nn.data.map escapeChar).flatten ++ '"' :: '}' :: rest))))))))))) = ('"' :: (("shop".data.map escapeChar).flatten ++ '"' :: ':' :: ('"' :: ((S.data.map escapeChar).flatten ++ '"' :: ',' :: ('"' :: (("ts".data.map escapeChar).flatten ++ '"' :: ':' :: ((intToString t).data ++ ',' :: ('"' :: (("n".data.map escapeChar).flatten ++ '"' :: ':' :: ('"' :: ((nn.data.map escapeChar).flatten ++ '"' :: '}' :: rest))))))))))) := skipWs_not_ws (by decide) _
  have h1 : parseMembers (f + 4) ('"' :: (("shop".data.map escapeChar).flatten ++ '"' :: ':' :: ('"' :: ((S.data.map escapeChar).flatten ++ '"' :: ',' :: ('"' :: (("ts".data.map escapeChar).flatten ++ '"' :: ':' :: ((intToString t).data ++ ',' :: ('"' :: (("n".data.map escapeChar).flatten ++ '"' :: ':' :: ('"' :: ((nn.data.map escapeChar).flatten ++ '"' :: '}' :: rest))))))))))) []
      = parseMembers (f + 3) ('"' :: (("ts".data.map escapeChar).flatten ++ '"' :: ':' :: ((intToString t).data ++ ',' :: ('"' :: (("n".data.map escapeChar).flatten ++ '"' :: ':' :: ('"' :: ((nn.data.map escapeChar).flatten ++ '"' :: '}' :: rest))))))) (jsUpsert [] "shop" (.str S)) :=
    parseMembers_str_comma (f + 2) "shop" S ('"' :: (("ts".data.map escapeChar).flatten ++ '"' :: ':' :: ((intToString t).data ++ ',' :: ('"' :: (("n".data.map escapeChar).flatten ++ '"' :: ':' :: ('"' :: ((nn.data.map escapeChar).flatten ++ '"' :: '}' :: rest))))))) []
  have h2 : parseMembers (f + 3) ('"' :: (("ts".data.map escapeChar).flatten ++ '"' :: ':' :: ((intToString t).data ++ ',' :: ('"' :: (("n".data.map escapeChar).flatten ++ '"' :: ':' :: ('"' :: ((nn.data.map escapeChar).flatten ++ '"' :: '}' :: rest))))))) (jsUpsert [] "shop" (.str S))
      = parseMembers (f + 2) ('"' :: (("n".data.map escapeChar).flatten ++ '"' :: ':' :: ('"' :: ((nn.data.map escapeChar).flatten ++ '"' :: '}' :: rest))))
        (jsUpsert (jsUpsert [] "shop" (.str S)) "ts" (.num t)) :=
    parseMembers_int_comma (f + 1) "ts" t ('"' :: (("n".data.map escapeChar).flatten ++ '"' :: ':' :: ('"' :: ((nn.data.map escapeChar).flatten ++ '"' :: '}' :: rest)))) (jsUpsert [] "shop" (.str S))
  have h3 : parseMembers (f + 2) ('"' :: (("n".data.map escapeChar).flatten ++ '"' :: ':' :: ('"' :: ((nn.data.map escapeChar).flatten ++ '"' :: '}' :: rest))))
        (jsUpsert (jsUpsert [] "shop" (.str S)) "ts" (.num t))
      = some (jsUpsert (jsUpsert (jsUpsert [] "shop" (.str S)) "ts" (.num t)) "n"
          (.str nn), rest) :=
    parseMembers_str_last f "n" nn rest
      (jsUpsert (jsUpsert [] "shop" (.str S)) "ts" (.num t))
  simp only [parseValue, hws0]
  rw [hwsr]
  have harm : (match ('"' :: (("shop".data.map escapeChar).flatten ++ '"' :: ':' :: ('"' :: ((S.data.map escapeChar).flatten ++ '"' :: ',' :: ('"' :: (("ts".data.map escapeChar).flatten ++ '"' :: ':' :: ((intToString t).data ++ ',' :: ('"' :: (("n".data.map escapeChar).flatten ++ '"' :: ':' :: ('"' :: ((nn.data.map escapeChar).flatten ++ '"' :: '}' :: rest))))))))))) with
      | '}' :: r1 => some (Js.obj [], r1)
      | r1 =>
        match parseMembers (f + 4) r1 [] with
        | some (ms, r2) => some (Js.obj ms, r2)
        | none => none)
      = (match parseMembers (f + 4) ('"' :: (("shop".data.map escapeChar).flatten ++ '"' :: ':' :: ('"' :: ((S.data.map escapeChar).flatten ++ '"' :: ',' :: ('"' :: (("ts".data.map escapeChar).flatten ++ '"' :: ':' :: ((intToString t).data ++ ',' :: ('"' :: (("n".data.map escapeChar).flatten ++ '"' :: ':' :: ('"' :: ((nn.data.map escapeChar).flatten ++ '"' :: '}' :: rest))))))))))) [] with
        | some (ms, r2) => some (Js.obj ms, r2)
        | none => none) := rfl
  rw [harm, h1, h2, h3]
  simp [jsUpsert]

theorem jsonParse_payload (S nn : String) (t : Int) :
    jsonParse (jsonStringify (.obj [("shop", Js.str S), ("ts", Js.num t), ("n", Js.str nn)]))
      = some (.obj [("shop", Js.str S), ("ts", Js.num t), ("n", Js.str nn)]) := by
  have hs := payload_data_shape S nn t []
  have hlen : 4 ≤ (jsonStringify (.obj [("shop", Js.str S), ("ts", Js.num t),
      ("n", Js.str nn)])).data.length := by
    have hc := congrArg List.length hs
    have e1 : (escapeChar 's').length = 1 := rfl
    have e2 : (escapeChar 'h').length = 1 := rfl
    have e3 : (escapeChar 'o').length = 1 := rfl
    have e4 : (escapeChar 'p').length = 1 := rfl
    have e5 : (escapeChar 't').length = 1 := rfl
    have e6 : (escapeChar 'n').length = 1 := rfl
    simp [List.length_append, List.length_cons, e1, e2, e3, e4, e5, e6] at hc
    have hsl : (jsonStringify (.obj [("shop", Js.str S), ("ts", Js.num t),
        ("n", Js.str nn)])).data.length = (jsonStringify (.obj [("shop", Js.str S),
        ("ts", Js.num t), ("n", Js.str nn)])).length := rfl
    omega
  obtain ⟨f, hf⟩ : ∃ f, (jsonStringify (.obj [("shop", Js.str S), ("ts", Js.num t),
      ("n", Js.str nn)])).data.length + 1 = f + 5 :=
    ⟨(jsonStringify (.obj [("shop", Js.str S), ("ts", Js.num t),
      ("n", Js.str nn)])).data.length - 4, by omega⟩
  have hp := parseValue_payloadObj f S nn t []
  rw [List.append_nil] at hp
  unfold jsonParse
  rw [hf, hp]
  rfl

/-! ## Facts about `split` and the token shape -/

theorem splitOnChar_no_sep (sep : Char) :
    ∀ l : List Char, (∀ c ∈ l, c ≠ sep) → splitOnChar sep l = [l]
  | [], _ => rfl
  | c :: rest, h => by
    rw [splitOnChar, if_neg (h c (by simp))]
    rw [splitOnChar_no_sep sep rest (fun c hc => h c (by simp [hc]))]

theorem splitOnChar_append (sep : Char) (b : List Char) :
    ∀ a : List Char, (∀ c ∈ a, c ≠ sep) →
      splitOnChar sep (a ++ sep :: b) = a :: splitOnChar sep b
  | [], _ => by
    rw [List.nil_append, splitOnChar, if_pos rfl]
  | c :: a, h => by
    rw [List.cons_append, splitOnChar, if_neg (h c (by simp))]
    rw [splitOnChar_append sep b a (fun c hc => h c (by simp [hc]))]

theorem jsSplit_two (p s : String) (hp : ∀ c ∈ p.data, c ≠ '.')
    (hs : ∀ c ∈ s.data, c ≠ '.') :
    jsSplit '.' (p ++ "." ++ s) = [p, s] := by
  unfold jsSplit
  have hdata : (p ++ "." ++ s).data = p.data ++ '.' :: s.data := by
    rw [String.data_append, String.data_append]
    simp
  rw [hdata, splitOnChar_append '.' s.data p.data hp,
    splitOnChar_no_sep '.' s.data hs]
  simp [string_mk_data]

theorem b64urlEncodeStr_no_dot (x : String) :
    ∀ c ∈ (b64urlEncodeStr x).data, c ≠ '.' := by
  show ∀ c ∈ b64EncodeBytes (utf8 x), c ≠ '.'
  exact b64EncodeBytes_ne_dot _

/-! ## The issue/redeem roundtrip of the self-verifying state token -/

theorem verifyStateToken_roundtrip (hmacHex : String → String → String)
    (apiSecret S nonce : String) (now d : Int)
    (hS : S ≠ "") (hnow : now ≠ 0)
    (hhex : ∀ k m, ∀ c ∈ (hmacHex k m).data, c ≠ '.')
    (hd : d ≤ stateTokenMaxAge) :
    verifyStateTokenE hmacHex apiSecret (now + d)
      (createStateToken hmacHex apiSecret S now nonce) (some (.str S)) stateTokenMaxAge
      = .ok true := by
  have hsplit : jsSplit '.' (createStateToken hmacHex apiSecret S now nonce)
      = [(b64urlEncodeStr (jsonStringify (.obj [("shop", .str S), ("ts", .num now), ("n", .str nonce)]))), hmacHex apiSecret (b64urlEncodeStr (jsonStringify (.obj [("shop", .str S), ("ts", .num now), ("n", .str nonce)])))] := by
    unfold createStateToken
    exact jsSplit_two _ _ (b64urlEncodeStr_no_dot _) (hhex _ _)
  unfold verifyStateTokenE
  rw [hsplit]
  simp only []
  rw [if_neg (by simp)]
  have htse : timingSafeEqual (utf8 (hmacHex apiSecret (b64urlEncodeStr (jsonStringify (.obj [("shop", .str S), ("ts", .num now), ("n", .str nonce)])))))
      (utf8 (hmacHex apiSecret (b64urlEncodeStr (jsonStringify (.obj [("shop", .str S), ("ts", .num now), ("n", .str nonce)]))))) = .ok true := by
    simp [timingSafeEqual]
  rw [htse]
  simp only [Bool.not_true, Bool.false_eq_true, if_false]
  rw [b64url_roundtrip, jsonParse_payload]
  simp only []
  have hshop : jsGet (.obj [("shop", .str S), ("ts", .num now), ("n", .str nonce)]) "shop" = some (.str S) := by
    simp [jsGet, List.lookup]
  have hts : jsGet (.obj [("shop", .str S), ("ts", .num now), ("n", .str nonce)]) "ts" = some (.num now) := by
    simp [jsGet, List.lookup]
  rw [hshop, hts]
  rw [if_neg (by simp [truthyOpt, truthy, hS, hnow])]
  rw [if_neg (by simp [shopMismatch, qvalTruthy, hS])]
  rw [if_neg ?hage]
  case hage =>
    simp only [ageExceeded, toNumber]
    simp only [Bool.not_eq_true]
    rw [show now + d - now = d from by omega]
    simp
    omega

/-! ## Map and sort lemmas -/

theorem mapSet_lookup {α : Type} (m : List (String × α)) (k : String) (v : α) (t : String) :
    (mapSet m k v).lookup t = if t = k then some v else m.lookup t := by
  induction m with
  | nil =>
    simp only [mapSet, List.lookup]
    by_cases h : t = k
    · simp [h]
    · simp [h, show (t == k) = false from by simp [h]]
  | cons hd tl ih =>
    obtain ⟨k0, v0⟩ := hd
    simp only [mapSet]
    by_cases hk : k0 = k
    · subst hk
      simp only [if_pos rfl, List.lookup]
      by_cases ht : t = k0
      · subst ht
        simp
      · simp [show (t == k0) = false from by simp [ht], ht]
    · simp only [if_neg hk, List.lookup]
      by_cases ht : t = k0
      · subst ht
        simp [hk]
      · simp [show (t == k0) = false from by simp [ht], ih]

theorem lookup_of_mem_nodup {α : Type} :
    ∀ (q : List (String × α)), (q.map Prod.fst).Nodup →
      ∀ k v, (k, v) ∈ q → q.lookup k = some v
  | [], _, k, v, hm => by simp at hm
  | (k0, v0) :: rest, hnd, k, v, hm => by
    simp only [List.map_cons, List.nodup_cons] at hnd
    rcases List.mem_cons.mp hm with heq | hm2
    · have h1 : k = k0 := congrArg Prod.fst heq
      have h2 : v = v0 := congrArg Prod.snd heq
      subst h1
      subst h2
      simp [List.lookup]
    · have hk : k ≠ k0 := by
        intro h
        subst h
        exact hnd.1 (List.mem_map.mpr ⟨(k, v), hm2, rfl⟩)
      simp only [List.lookup, show (k == k0) = false from by simp [hk]]
      exact lookup_of_mem_nodup rest hnd.2 k v hm2

theorem sortInsert_perm {α : Type} (cmp : α → α → Int) (x : α) :
    ∀ l : List α, List.Perm (sortInsert cmp x l) (x :: l)
  | [] => List.Perm.refl _
  | y :: ys => by
    rw [sortInsert]
    split
    · exact List.Perm.refl _
    · exact (List.Perm.cons y (sortInsert_perm cmp x ys)).trans (List.Perm.swap x y ys)

theorem jsSortBy_perm {α : Type} (cmp : α → α → Int) :
    ∀ l : List α, List.Perm (jsSortBy cmp l) l
  | [] => List.Perm.refl _
  | x :: xs => by
    rw [jsSortBy]
    exact (sortInsert_perm cmp x _).trans (List.Perm.cons x (jsSortBy_perm cmp xs))

theorem mem_jsSortBy {α : Type} {cmp : α → α → Int} {l : List α} {a : α} :
    a ∈ jsSortBy cmp l ↔ a ∈ l :=
  (jsSortBy_perm cmp l).mem_iff

theorem sortInsert_pairwise {α : Type} (cmp : α → α → Int)
    (htr : ∀ a b c, cmp a b ≤ 0 → cmp b c ≤ 0 → cmp a c ≤ 0)
    (htot : ∀ a b, cmp a b ≤ 0 ∨ cmp b a ≤ 0) (x : α) :
    ∀ l : List α, List.Pairwise (fun a b => cmp a b ≤ 0) l →
      List.Pairwise (fun a b => cmp a b ≤ 0) (sortInsert cmp x l)
  | [], _ => by simp [sortInsert]
  | y :: ys, hp => by
    simp only [sortInsert]
    have hy := List.pairwise_cons.mp hp
    split
    · rename_i hxy
      refine List.pairwise_cons.mpr ⟨?_, hp⟩
      intro z hz
      rcases List.mem_cons.mp hz with rfl | hz2
      · exact hxy
      · exact htr x y z hxy (hy.1 z hz2)
    · rename_i hxy
      have hyx : cmp y x ≤ 0 := by
        rcases htot x y with h | h
        · exact absurd h hxy
        · exact h
      refine List.pairwise_cons.mpr ⟨?_, sortInsert_pairwise cmp htr htot x ys hy.2⟩
      intro z hz
      rcases List.mem_cons.mp ((sortInsert_perm cmp x ys).mem_iff.mp hz) with rfl | hz2
      · exact hyx
      · exact hy.1 z hz2

theorem jsSortBy_pairwise {α : Type} (cmp : α → α → Int)
    (htr : ∀ a b c, cmp a b ≤ 0 → cmp b c ≤ 0 → cmp a c ≤ 0)
    (htot : ∀ a b, cmp a b ≤ 0 ∨ cmp b a ≤ 0) :
    ∀ l : List α, List.Pairwise (fun a b => cmp a b ≤ 0) (jsSortBy cmp l)
  | [] => List.Pairwise.nil
  | x :: xs => by
    rw [jsSortBy]
    exact sortInsert_pairwise cmp htr htot x _ (jsSortBy_pairwise cmp htr htot xs)

theorem sortInsert_map {α β : Type} (f : α → β) (cmpK : β → β → Int) (x : α) :
    ∀ l : List α,
      (sortInsert (fun a b => cmpK (f a) (f b)) x l).map f
        = sortInsert cmpK (f x) (l.map f)
  | [] => rfl
  | y :: ys => by
    simp only [sortInsert, List.map_cons]
    split
    · simp
    · simp [sortInsert_map f cmpK x ys]

theorem jsSortBy_map {α β : Type} (f : α → β) (cmpK : β → β → Int) :
    ∀ l : List α,
      (jsSortBy (fun a b => cmpK (f a) (f b)) l).map f = jsSortBy cmpK (l.map f)
  | [] => rfl
  | x :: xs => by
    rw [jsSortBy, List.map_cons, jsSortBy, sortInsert_map, jsSortBy_map f cmpK xs]

/-! ## String equality via character data -/

theorem string_data_eq (a b : String) (h : a.data = b.data) : a = b := by
  cases a; cases b; exact congrArg String.mk h

/-! ## The canonical messages of the two HMAC variants -/

theorem serverHmacMessage_eq_spec (q : List (String × QVal))
    (hnd : (q.map Prod.fst).Nodup) :
    serverHmacMessage q = specServerMessage q := by
  unfold serverHmacMessage specServerMessage
  rw [← jsSortBy_map Prod.fst jsStrCompare, List.map_map]
  apply congrArg (String.intercalate "&")
  apply List.map_congr_left
  intro kv hkv
  have hmem : kv ∈ q := List.mem_of_mem_filter (mem_jsSortBy.mp hkv)
  have hlk : q.lookup kv.1 = some kv.2 :=
    lookup_of_mem_nodup q hnd kv.1 kv.2 (by simpa using hmem)
  simp [Function.comp, hlk]

theorem authHmacMessage_eq_spec (q : List (String × QVal)) :
    authHmacMessage q = specAuthMessage q := by
  unfold authHmacMessage specAuthMessage
  rw [show jsSortBy jsStrCompare ["shop", "code", "state", "timestamp"]
      = ["code", "shop", "state", "timestamp"] from by decide]
  simp only [List.map_cons, List.map_nil]
  rw [show ∀ a b c d : String, String.intercalate "&" [a, b, c, d]
      = a ++ "&" ++ b ++ "&" ++ c ++ "&" ++ d from fun _ _ _ _ => rfl]
  apply string_data_eq
  simp only [String.data_append, List.append_assoc]
  rfl

/-! ## Verifying a token made by `createStateToken` -/

theorem verifyStateToken_createStateToken (hmacHex : String → String → String)
    (apiSecret S nonce : String) (now now2 : Int) (expectedShop : Option QVal)
    (maxAge : Int)
    (hhex : ∀ k m, ∀ c ∈ (hmacHex k m).data, c ≠ '.') :
    verifyStateTokenE hmacHex apiSecret now2
        (createStateToken hmacHex apiSecret S now nonce) expectedShop maxAge
      = .ok (if (!truthyOpt (some (Js.str S)) || !truthyOpt (some (Js.num now))) = true then false
             else if shopMismatch (some (Js.str S)) expectedShop = true then false
             else if ageExceeded now2 (some (Js.num now)) maxAge = true then false
             else true) := by
  have hsplit : jsSplit '.' (createStateToken hmacHex apiSecret S now nonce)
      = [(b64urlEncodeStr (jsonStringify (.obj [("shop", .str S), ("ts", .num now), ("n", .str nonce)]))), hmacHex apiSecret (b64urlEncodeStr (jsonStringify (.obj [("shop", .str S), ("ts", .num now), ("n", .str nonce)])))] := by
    unfold createStateToken
    exact jsSplit_two _ _ (b64urlEncodeStr_no_dot _) (hhex _ _)
  unfold verifyStateTokenE
  rw [hsplit]
  simp only []
  rw [if_neg (by simp)]
  have htse : timingSafeEqual (utf8 (hmacHex apiSecret (b64urlEncodeStr (jsonStringify (.obj [("shop", .str S), ("ts", .num now), ("n", .str nonce)])))))
      (utf8 (hmacHex apiSecret (b64urlEncodeStr (jsonStringify (.obj [("shop", .str S), ("ts", .num now), ("n", .str nonce)]))))) = .ok true := by
    simp [timingSafeEqual]
  rw [htse]
  simp only [Bool.not_true, Bool.false_eq_true, if_false]
  rw [b64url_roundtrip, jsonParse_payload]
  simp only []
  have hshop : jsGet (.obj [("shop", .str S), ("ts", .num now), ("n", .str nonce)]) "shop" = some (.str S) := by
    simp [jsGet, List.lookup]
  have hts : jsGet (.obj [("shop", .str S), ("ts", .num now), ("n", .str nonce)]) "ts" = some (.num now) := by
    simp [jsGet, List.lookup]
  rw [hshop, hts]
  split
  · rfl
  · split
    · rfl
    · split
      · rfl
      · rfl

/-! ## Order facts about the UTF-16 lexicographic comparison -/

theorem natListLt_trans : ∀ u v w : List Nat, natListLt u v = true →
    natListLt v w = true → natListLt u w = true
  | [], [], _, h1, _ => by simp [natListLt] at h1
  | [], _ :: _, [], _, h2 => by simp [natListLt] at h2
  | [], _ :: _, _ :: _, _, _ => rfl
  | _ :: _, [], _, h1, _ => by simp [natListLt] at h1
  | _ :: _, _ :: _, [], _, h2 => by simp [natListLt] at h2
  | a :: as, b :: bs, c :: cs, h1, h2 => by
    simp only [natListLt] at h1 h2 ⊢
    by_cases hab : a < b
    · by_cases hbc : b < c
      · rw [if_pos (by omega)]
      · rw [if_neg hbc] at h2
        by_cases hcb : c < b
        · rw [if_pos hcb] at h2
          exact absurd h2 (by simp)
        · rw [if_pos (by omega)]
    · rw [if_neg hab] at h1
      by_cases hba : b < a
      · rw [if_pos hba] at h1
        exact absurd h1 (by simp)
      · rw [if_neg hba] at h1
        by_cases hbc : b < c
        · rw [if_pos (by omega)]
        · rw [if_neg hbc] at h2
          by_cases hcb : c < b
          · rw [if_pos hcb] at h2
            exact absurd h2 (by simp)
          · rw [if_neg hcb] at h2
            rw [if_neg (by omega), if_neg (by omega)]
            exact natListLt_trans as bs cs h1 h2

theorem natListLt_conn : ∀ u v : List Nat, natListLt u v = false →
    natListLt v u = false → u = v
  | [], [], _, _ => rfl
  | [], _ :: _, h1, _ => by simp [natListLt] at h1
  | _ :: _, [], _, h2 => by simp [natListLt] at h2
  | a :: as, b :: bs, h1, h2 => by
    simp only [natListLt] at h1 h2
    by_cases hab : a < b
    · rw [if_pos hab] at h1
      exact absurd h1 (by simp)
    · rw [if_neg hab] at h1
      by_cases hba : b < a
      · rw [if_pos hba] at h2
        exact absurd h2 (by simp)
      · rw [if_neg hba] at h1
        rw [if_neg hba, if_neg hab] at h2
        have : a = b := by omega
        rw [this, natListLt_conn as bs h1 h2]

theorem jsStrCompare_le_total (a b : String) :
    jsStrCompare a b ≤ 0 ∨ jsStrCompare b a ≤ 0 := by
  unfold jsStrCompare jsStrLt
  by_cases h1 : natListLt (utf16 a) (utf16 b) = true
  · left
    rw [if_pos h1]
    norm_num
  · right
    by_cases h2 : natListLt (utf16 b) (utf16 a) = true
    · rw [if_pos h2]
      norm_num
    · rw [if_neg h2, if_neg h1]

theorem jsStrCompare_le_trans (a b c : String) (h1 : jsStrCompare a b ≤ 0)
    (h2 : jsStrCompare b c ≤ 0) : jsStrCompare a c ≤ 0 := by
  unfold jsStrCompare jsStrLt at *
  by_cases hab : natListLt (utf16 a) (utf16 b) = true
  · by_cases hbc : natListLt (utf16 b) (utf16 c) = true
    · rw [if_pos (natListLt_trans _ _ _ hab hbc)]
      norm_num
    · by_cases hcb : natListLt (utf16 c) (utf16 b) = true
      · rw [if_neg (by simpa using hbc), if_pos hcb] at h2
        exact absurd h2 (by norm_num)
      · have heq : utf16 b = utf16 c :=
          natListLt_conn _ _ (by simpa using hbc) (by simpa using hcb)
        rw [if_pos (by rw [← heq]; exact hab)]
        norm_num
  · by_cases hba : natListLt (utf16 b) (utf16 a) = true
    · rw [if_neg hab, if_pos hba] at h1
      exact absurd h1 (by norm_num)
    · have heq : utf16 a = utf16 b :=
        natListLt_conn _ _ (by simpa using hab) (by simpa using hba)
      rw [heq]
      exact h2

/-! ## The claims -/

/-- C1 (corrected): the two verification variants do not share the single
canonical message the claim describes.  `verifyShopifyHmac` of
`src/server.js` percent-encodes every value
(`specServerMessage`), and the inline check of `src/auth.js` builds its
message from the fixed key set `code`, `shop`, `state`, `timestamp` only,
rendering an absent one as `undefined` and ignoring every other parameter
(`specAuthMessage`).  For a query with no repeated key, each variant's
message is exactly its amended formulation. -/
theorem claim_C1_messages (q : List (String × QVal)) (hnd : (q.map Prod.fst).Nodup) :
    serverHmacMessage q = specServerMessage q ∧ authHmacMessage q = specAuthMessage q :=
  ⟨serverHmacMessage_eq_spec q hnd, authHmacMessage_eq_spec q⟩

/-- Witness for C1 at a concrete query. -/
theorem claim_C1_messages_witness :
    serverHmacMessage [("code", QVal.str "a b"), ("hmac", QVal.str "x")]
      = specServerMessage [("code", QVal.str "a b"), ("hmac", QVal.str "x")]
    ∧ authHmacMessage [("code", QVal.str "a b"), ("hmac", QVal.str "x")]
      = specAuthMessage [("code", QVal.str "a b"), ("hmac", QVal.str "x")] :=
  claim_C1_messages [("code", QVal.str "a b"), ("hmac", QVal.str "x")] (by decide)

/-- Counterexample to C1 as stated: a value with a space makes the server
variant's message differ from the claim's canonical message
(percent-encoding), and an extra parameter makes the auth variant's
message differ from it (fixed key set). -/
theorem claim_C1_counterexample :
    serverHmacMessage [("code", QVal.str "a b"), ("hmac", QVal.str "x")]
      ≠ claimHmacMessage [("code", QVal.str "a b"), ("hmac", QVal.str "x")]
    ∧ authHmacMessage [("code", QVal.str "c"), ("shop", QVal.str "s"),
        ("state", QVal.str "t"), ("timestamp", QVal.str "1"),
        ("extra", QVal.str "e"), ("hmac", QVal.str "x")]
      ≠ claimHmacMessage [("code", QVal.str "c"), ("shop", QVal.str "s"),
        ("state", QVal.str "t"), ("timestamp", QVal.str "1"),
        ("extra", QVal.str "e"), ("hmac", QVal.str "x")] := by
  constructor <;> decide

/-- C2 (corrected): `verifyShopifyHmac` throws a `TypeError` when the
`hmac` key is absent (`Buffer.from(undefined)`), so it is not total; with
the key present it returns a boolean, and a byte-length mismatch between
the computed hex signature and the provided one yields `false` before the
timing-safe comparison.  The auth-variant check is a plain `!==` string
comparison: it passes exactly when the provided `hmac` is the string the
generator computes (an array never passes), with no length pre-check and
no constant-time guarantee. -/
theorem claim_C2_verifier (hmacHex : String → String → String)
    (q : List (String × QVal)) (apiSecret : String) :
    (q.lookup "hmac" = none → verifyShopifyHmacE hmacHex q apiSecret = .error ())
    ∧ (∀ v, q.lookup "hmac" = some v → ∃ b, verifyShopifyHmacE hmacHex q apiSecret = .ok b)
    ∧ (∀ s, q.lookup "hmac" = some (.str s) →
        (utf8 (hmacHex apiSecret (serverHmacMessage q))).length ≠ (utf8 s).length →
        verifyShopifyHmacE hmacHex q apiSecret = .ok false)
    ∧ (authHmacPasses hmacHex apiSecret q = true ↔
        q.lookup "hmac" = some (.str (hmacHex apiSecret (authHmacMessage q)))) := by
  refine ⟨?_, ?_, ?_, ?_⟩
  · intro h
    simp only [verifyShopifyHmacE, h, bufferFromQVal]
  · intro v h
    simp only [verifyShopifyHmacE, h]
    cases v with
    | str s =>
      simp only [bufferFromQVal]
      split
      · rename_i hlen
        exact ⟨_, by rw [timingSafeEqual, if_pos hlen]⟩
      · exact ⟨false, rfl⟩
    | arr vs =>
      simp only [bufferFromQVal]
      split
      · rename_i hlen
        exact ⟨_, by rw [timingSafeEqual, if_pos hlen]⟩
      · exact ⟨false, rfl⟩
  · intro s h hlen
    simp only [verifyShopifyHmacE, h, bufferFromQVal]
    rw [if_neg hlen]
  · unfold authHmacPasses
    cases hlk : q.lookup "hmac" with
    | none => simp
    | some v =>
      cases v with
      | str h =>
        simp only [beq_iff_eq, Option.some.injEq, QVal.str.injEq]
        exact eq_comm
      | arr vs => simp

/-- Counterexample to C2 as stated: on a query without the `hmac` key the
verifier throws instead of returning a boolean. -/
theorem claim_C2_counterexample :
    verifyShopifyHmacE (fun _ _ => "") [("shop", QVal.str "s")] "secret" = .error () := rfl

/-- C3 (corrected): `verifyStateToken` returns true exactly under the
amended condition `specStateTokenValid`, which strengthens the claim's
"shop and ts present" to JS-truthy (an empty-string `shop` or a zero or
empty `ts` is rejected) and replaces `now - ts ≤ maxAgeMs` by the coerced
test the code runs (`now - ToNumber(ts) > maxAgeMs` fails to fire when
`ToNumber(ts)` is NaN, so such a payload passes the age check). -/
theorem claim_C3_characterization (hmacHex : String → String → String)
    (apiSecret : String) (now : Int) (token : String) (expectedShop : Option QVal)
    (maxAgeMs : Int) :
    verifyStateTokenE hmacHex apiSecret now token expectedShop maxAgeMs = .ok true
      ↔ specStateTokenValid hmacHex apiSecret now token expectedShop maxAgeMs := by
  unfold verifyStateTokenE specStateTokenValid
  rcases hsp : jsSplit '.' token with _ | ⟨p, _ | ⟨s, _ | ⟨x, rest⟩⟩⟩
  · simp
  · simp
  · constructor
    · intro h
      simp only [] at h
      by_cases hlen : (utf8 (hmacHex apiSecret p)).length = (utf8 s).length
      · rw [if_neg (by simp [hlen])] at h
        simp only [timingSafeEqual] at h
        rw [if_pos hlen] at h
        simp only [] at h
        by_cases hbe : (utf8 (hmacHex apiSecret p) == utf8 s) = true
        · rw [hbe] at h
          simp only [Bool.not_true, Bool.false_eq_true, if_false] at h
          have hstr : hmacHex apiSecret p = s := utf8_injective (by simpa using hbe)
          rcases hjp : jsonParse (b64urlDecodeStr p) with _ | payload
          · rw [hjp] at h
            simp at h
          · rw [hjp] at h
            refine ⟨p, s, payload, rfl, hstr, hjp, ?_⟩
            split at h
            · simp at h
            · rename_i hc1
              split at h
              · simp at h
              · rename_i hc2
                split at h
                · simp at h
                · rename_i hc3
                  refine ⟨?_, ?_, ?_, ?_⟩ <;> simp_all
        · rw [Bool.not_eq_true] at hbe
          rw [hbe] at h
          simp at h
      · rw [if_pos (by simpa using hlen)] at h
        simp at h
    · rintro ⟨p', s', payload, heq, hsig, hjp, h1, h2, h3, h4⟩
      obtain ⟨rfl, rfl⟩ : p' = p ∧ s' = s := by
        injection heq with e1 e2
        injection e2 with e2 _
        exact ⟨e1.symm, e2.symm⟩
      simp only []
      rw [← hsig]
      rw [if_neg (by simp)]
      simp only [timingSafeEqual, if_pos rfl, BEq.refl, Bool.not_true,
        Bool.false_eq_true, if_false]
      rw [hjp]
      simp [h1, h2, h3, h4]
  · simp

/-- Counterexample to C3 as stated: a correctly signed, fresh token whose
payload has both `shop` and `ts` fields present (shop is the empty
string) meets every condition of the claim, yet `verifyStateToken`
returns false, because the code tests truthiness, not presence. -/
theorem claim_C3_counterexample :
    jsSplit '.' (b64urlEncodeStr "\x7b\"shop\":\"\",\"ts\":5\x7d" ++ "." ++ "sig")
      = [b64urlEncodeStr "\x7b\"shop\":\"\",\"ts\":5\x7d", "sig"]
    ∧ (fun _ _ => "sig" : String → String → String) "secret" (b64urlEncodeStr "\x7b\"shop\":\"\",\"ts\":5\x7d") = "sig"
    ∧ jsonParse (b64urlDecodeStr (b64urlEncodeStr "\x7b\"shop\":\"\",\"ts\":5\x7d"))
      = some (.obj [("shop", .str ""), ("ts", .num 5)])
    ∧ (jsGet (.obj [("shop", Js.str ""), ("ts", Js.num 5)]) "shop").isSome = true
    ∧ (jsGet (.obj [("shop", Js.str ""), ("ts", Js.num 5)]) "ts").isSome = true
    ∧ ((6 : Int) - 5 ≤ stateTokenMaxAge)
    ∧ verifyStateTokenE (fun _ _ => "sig") "secret" 6
        (b64urlEncodeStr "\x7b\"shop\":\"\",\"ts\":5\x7d" ++ "." ++ "sig") none stateTokenMaxAge = .ok false :=
  ⟨rfl, rfl, rfl, rfl, rfl, by decide, rfl⟩

/-- C4 (corrected): issue-then-redeem holds for both strategies once the
subject id and the issuance clock are JS-truthy: for a non-empty shop `S`
and a nonzero issuance time, a token created by `createStateToken` at
`now` verifies at `now` against `S` (the hex HMAC being dot-free), and a
state written to the nonce store is found by the store-backed check.  The
truthiness proviso is necessary: see the counterexample. -/
theorem claim_C4_roundtrip (hmacHex : String → String → String)
    (apiSecret S nonce state : String) (now t : Int) (store : List (String × Int))
    (hS : S ≠ "") (hnow : now ≠ 0)
    (hhex : ∀ k m, ∀ c ∈ (hmacHex k m).data, c ≠ '.') :
    verifyStateTokenE hmacHex apiSecret now
        (createStateToken hmacHex apiSecret S now nonce) (some (.str S)) stateTokenMaxAge
      = .ok true
    ∧ stateStoreRedeem (stateStoreIssue store state t) state = true := by
  constructor
  · have h := verifyStateToken_roundtrip hmacHex apiSecret S nonce now 0 hS hnow hhex (by decide)
    simpa using h
  · simp [stateStoreRedeem, stateStoreIssue, mapSet_lookup]

/-- Witness for C4 at a concrete shop and clock. -/
theorem claim_C4_roundtrip_witness :
    verifyStateTokenE (fun _ _ => "ab") "sec" 1700000000000
        (createStateToken (fun _ _ => "ab") "sec" "x.myshopify.com" 1700000000000 "n")
        (some (.str "x.myshopify.com")) stateTokenMaxAge = .ok true
    ∧ stateStoreRedeem (stateStoreIssue [] "state1" 0) "state1" = true :=
  claim_C4_roundtrip (fun _ _ => "ab") "sec" "x.myshopify.com" "n" "state1"
    1700000000000 0 [] (by decide) (by decide)
    (by intro k m; show ∀ c ∈ ("ab" : String).data, c ≠ '.'; decide)

/-- Counterexample to C4 as stated: for the subject id `""` the freshly
issued token does not verify (the payload's `shop` is falsy), so
`redeem(issue(S), S)` does not hold for every subject id. -/
theorem claim_C4_counterexample :
    verifyStateTokenE (fun _ _ => "ab") "secret" 1000
        (createStateToken (fun _ _ => "ab") "secret" "" 1000 "n")
        (some (.str "")) stateTokenMaxAge = .ok false := by
  rw [verifyStateToken_createStateToken (fun _ _ => "ab") "secret" "" "n" 1000 1000
      (some (.str "")) stateTokenMaxAge
      (by intro k m; show ∀ c ∈ ("ab" : String).data, c ≠ '.'; decide)]
  rfl

/-- C5 (confirmed): the store-backed redeem is exactly key membership in
the nonce map, and no request of `src/auth.js` ever removes an entry:
`/auth/install` only adds, `/auth/callback` only reads, so a redeemable
state stays redeemable across any sequence of requests (replay is
possible for the whole process lifetime). -/
theorem claim_C5_store_replay (store : List (String × Int)) (token : String)
    (events : List AuthEvent) :
    (stateStoreRedeem store token = true ↔ (store.lookup token).isSome = true)
    ∧ (stateStoreRedeem store token = true →
        stateStoreRedeem (events.foldl authStep store) token = true) := by
  constructor
  · exact Iff.rfl
  · induction events generalizing store with
    | nil => exact fun h => h
    | cons e es ih =>
      intro h
      rw [List.foldl_cons]
      apply ih
      cases e with
      | install s n =>
        simp only [authStep, stateStoreIssue, stateStoreRedeem] at *
        rw [mapSet_lookup]
        split
        · simp
        · exact h
      | callback => exact h

/-- C6 (confirmed): a cache `get` right after `put(k, v)` returns `v`; a
`get` 60000 ms or later after the insertion returns absent; an entry with
insertion timestamp `t` is returned exactly while `now - t < TTL_MS`; and
the TTL constant is 60000 ms. -/
theorem claim_C6_cache_ttl {α : Type} (cache : List (String × (Int × α)))
    (k : String) (v : α) (now d t : Int) (w : α) :
    cacheGetFresh (cachePut cache k now v) now k = some v
    ∧ (TTL_MS ≤ d → cacheGetFresh (cachePut cache k now v) (now + d) k = none)
    ∧ (cache.lookup k = some (t, w) →
        (cacheGetFresh cache now k = some w ↔ now - t < TTL_MS))
    ∧ TTL_MS = 60000 := by
  have hput : ∀ now2 : Int, cacheGetFresh (cachePut cache k now v) now2 k
      = if now2 - now < TTL_MS then some v else none := by
    intro now2
    simp only [cacheGetFresh, cachePut, mapSet_lookup, if_pos rfl]
    rfl
  refine ⟨?_, ?_, ?_, by norm_num [TTL_MS]⟩
  · rw [hput, if_pos (by simp only [sub_self, TTL_MS]; norm_num)]
  · intro hd
    rw [hput, if_neg (by simp only [TTL_MS] at hd ⊢; omega)]
  · intro hlk
    simp only [cacheGetFresh, hlk]
    split
    · rename_i hfresh
      simp [hfresh]
    · rename_i hstale
      simp [hstale]

/-- C7 (confirmed): the `/proxy` post-processing sorts its output
ascending under the (parametric, locale-aware) name comparator for every
allow-list, the empty default included; when the allow-list is non-empty
every returned level's `locationId` is in it; on the spec's example the
allow-list `L1` drops the `L2` (`Warehouse`) entry; and whenever the
comparator puts `Warehouse` strictly after `Store`, the unfiltered
two-location example comes back in the order `Store`, `Warehouse`. -/
theorem claim_C7_postprocess (cmp : Option Js → Option Js → Int) (allow : List String)
    (levels : List Level)
    (htr : ∀ a b c, cmp a b ≤ 0 → cmp b c ≤ 0 → cmp a c ≤ 0)
    (htot : ∀ a b, cmp a b ≤ 0 ∨ cmp b a ≤ 0) :
    (allow ≠ [] → ∀ l ∈ postProcess cmp allow levels, allowSetHas allow l.locationId = true)
    ∧ List.Pairwise (fun a b => cmp a.location b.location ≤ 0) (postProcess cmp allow levels)
    ∧ postProcess cmp ["L1"]
        [⟨some (.str "L2"), some (.str "Warehouse"), .num 1⟩,
         ⟨some (.str "L1"), some (.str "Store"), .num 2⟩]
      = [⟨some (.str "L1"), some (.str "Store"), .num 2⟩]
    ∧ (0 < cmp (some (.str "Warehouse")) (some (.str "Store")) →
        postProcess cmp []
          [⟨some (.str "L2"), some (.str "Warehouse"), .num 1⟩,
           ⟨some (.str "L1"), some (.str "Store"), .num 2⟩]
        = [⟨some (.str "L1"), some (.str "Store"), .num 2⟩,
           ⟨some (.str "L2"), some (.str "Warehouse"), .num 1⟩]) := by
  refine ⟨?_, ?_, rfl, ?_⟩
  · intro hne l hl
    have hlen : allow.length ≠ 0 := by simpa using hne
    unfold postProcess at hl
    rw [if_pos hlen] at hl
    exact (List.mem_filter.mp (mem_jsSortBy.mp hl)).2
  · unfold postProcess
    exact jsSortBy_pairwise (fun (a b : Level) => cmp a.location b.location)
      (fun a b c h1 h2 => htr a.location b.location c.location h1 h2)
      (fun a b => htot a.location b.location) _
  · intro hgt
    unfold postProcess
    rw [if_neg (by simp)]
    simp only [jsSortBy, sortInsert]
    rw [if_neg (show ¬(cmp (some (Js.str "Warehouse")) (some (Js.str "Store")) ≤ 0) from by omega)]

/-- Witness for C7: under the concrete UTF-16 lexicographic name
comparator and the empty (default) allow-list, the spec's two-location
example comes back sorted with `Store` before `Warehouse`. -/
theorem claim_C7_postprocess_witness :
    postProcess locationNameCompare []
      [⟨some (.str "L2"), some (.str "Warehouse"), .num 1⟩,
       ⟨some (.str "L1"), some (.str "Store"), .num 2⟩]
    = [⟨some (.str "L1"), some (.str "Store"), .num 2⟩,
       ⟨some (.str "L2"), some (.str "Warehouse"), .num 1⟩]
    ∧ List.Pairwise
        (fun a b => locationNameCompare a.location b.location ≤ 0)
        (postProcess locationNameCompare []
          [⟨some (.str "L2"), some (.str "Warehouse"), .num 1⟩,
           ⟨some (.str "L1"), some (.str "Store"), .num 2⟩]) :=
  ⟨(claim_C7_postprocess locationNameCompare []
      [⟨some (.str "L2"), some (.str "Warehouse"), .num 1⟩,
       ⟨some (.str "L1"), some (.str "Store"), .num 2⟩]
      (fun a b c => jsStrCompare_le_trans (locationKey a) (locationKey b) (locationKey c))
      (fun a b => jsStrCompare_le_total (locationKey a) (locationKey b))).2.2.2 (by decide),
   (claim_C7_postprocess locationNameCompare []
      [⟨some (.str "L2"), some (.str "Warehouse"), .num 1⟩,
       ⟨some (.str "L1"), some (.str "Store"), .num 2⟩]
      (fun a b c => jsStrCompare_le_trans (locationKey a) (locationKey b) (locationKey c))
      (fun a b => jsStrCompare_le_total (locationKey a) (locationKey b))).2.1⟩

/-- C8 (confirmed): a `/proxy` request whose `x-shopify-shop-domain`
header is absent, or set to any string other than the configured shop,
yields status 403 with no levels payload in the response, the cache
unchanged, and zero upstream calls. -/
theorem claim_C8_forbidden (SHOP : String) (allow : List String)
    (cmp : Option Js → Option Js → Int) (cache : List (String × (Int × List Level)))
    (now : Int) (shopDomain : Option String) (variantId : Option QVal)
    (r1 r2 : Except Unit Js)
    (h : ∀ d, shopDomain = some d → d ≠ SHOP) :
    (proxyHandler SHOP allow cmp cache now shopDomain variantId r1 r2).status = 403
    ∧ (proxyHandler SHOP allow cmp cache now shopDomain variantId r1 r2).levelsBody = none
    ∧ (proxyHandler SHOP allow cmp cache now shopDomain variantId r1 r2).cacheAfter = cache
    ∧ (proxyHandler SHOP allow cmp cache now shopDomain variantId r1 r2).upstreamCalls = 0 := by
  cases shopDomain with
  | none => exact ⟨rfl, rfl, rfl, rfl⟩
  | some d =>
    have hd : d ≠ SHOP := h d rfl
    simp only [proxyHandler]
    rw [if_pos (by simp [hd])]
    exact ⟨rfl, rfl, rfl, rfl⟩

/-- Witness for C8 at a concrete mismatched header and at an absent
header. -/
theorem claim_C8_forbidden_witness :
    ((proxyHandler "shop.myshopify.com" [] (fun _ _ => 0) [] 0 (some "evil.example")
        none (.ok .null) (.ok .null)).status = 403
      ∧ (proxyHandler "shop.myshopify.com" [] (fun _ _ => 0) [] 0 (some "evil.example")
          none (.ok .null) (.ok .null)).levelsBody = none
      ∧ (proxyHandler "shop.myshopify.com" [] (fun _ _ => 0) [] 0 (some "evil.example")
          none (.ok .null) (.ok .null)).cacheAfter = []
      ∧ (proxyHandler "shop.myshopify.com" [] (fun _ _ => 0) [] 0 (some "evil.example")
          none (.ok .null) (.ok .null)).upstreamCalls = 0)
    ∧ ((proxyHandler "shop.myshopify.com" [] (fun _ _ => 0) [] 0 none
        none (.ok .null) (.ok .null)).status = 403
      ∧ (proxyHandler "shop.myshopify.com" [] (fun _ _ => 0) [] 0 none
          none (.ok .null) (.ok .null)).levelsBody = none
      ∧ (proxyHandler "shop.myshopify.com" [] (fun _ _ => 0) [] 0 none
          none (.ok .null) (.ok .null)).cacheAfter = []
      ∧ (proxyHandler "shop.myshopify.com" [] (fun _ _ => 0) [] 0 none
          none (.ok .null) (.ok .null)).upstreamCalls = 0) :=
  ⟨claim_C8_forbidden "shop.myshopify.com" [] (fun _ _ => 0) [] 0 (some "evil.example")
      none (.ok .null) (.ok .null)
      (by intro d hd; injection hd with he; subst he; decide),
   claim_C8_forbidden "shop.myshopify.com" [] (fun _ _ => 0) [] 0 none
      none (.ok .null) (.ok .null)
      (by intro d hd; simp at hd)⟩

/-- C9 (confirmed): on every `/auth/callback` outcome other than 200 the
`ADMIN_TOKEN` variable keeps its previous value; a 200 outcome means the
token exchange returned `ok` with a truthy `access_token`, which is the
new value of the variable. -/
theorem claim_C9_admin_token (hmacHex : String → String → String) (apiSecret : String)
    (adminToken : Option Js) (now : Int) (q : List (String × QVal))
    (tokenExchange : Except Unit (Bool × Js)) :
    ((callbackHandler hmacHex apiSecret adminToken now q tokenExchange).status ≠ 200 →
      (callbackHandler hmacHex apiSecret adminToken now q tokenExchange).adminToken
        = adminToken)
    ∧ ((callbackHandler hmacHex apiSecret adminToken now q tokenExchange).status = 200 →
      ∃ body tok, tokenExchange = .ok (true, body)
        ∧ jsGetThrow body "access_token" = .ok tok
        ∧ truthyOpt tok = true
        ∧ (callbackHandler hmacHex apiSecret adminToken now q tokenExchange).adminToken
            = tok) := by
  simp only [callbackHandler]
  repeat' split
  all_goals simp_all

/-- C10 (confirmed): `verifyStateToken` never throws, for every token,
expected shop and max age: the timing-safe comparison sits behind an
equal-length guard and the `JSON.parse` sits in a `try`, so the result is
always a boolean, and a payload that fails to parse yields false. -/
theorem claim_C10_no_throw (hmacHex : String → String → String) (apiSecret : String)
    (now : Int) (token : String) (expectedShop : Option QVal) (maxAgeMs : Int) :
    (∃ b, verifyStateTokenE hmacHex apiSecret now token expectedShop maxAgeMs
        = .ok b)
    ∧ (∀ p s, jsSplit '.' token = [p, s] →
        jsonParse (b64urlDecodeStr p) = none →
        verifyStateTokenE hmacHex apiSecret now token expectedShop maxAgeMs
          = .ok false) := by
  constructor
  · unfold verifyStateTokenE
    rcases jsSplit '.' token with _ | ⟨p, _ | ⟨s, _ | ⟨x, rest⟩⟩⟩
    · exact ⟨false, rfl⟩
    · exact ⟨false, rfl⟩
    · simp only []
      by_cases hlen : (utf8 (hmacHex apiSecret p)).length = (utf8 s).length
      · rw [if_neg (by simp [hlen])]
        simp only [timingSafeEqual]
        rw [if_pos hlen]
        simp only []
        split
        · exact ⟨false, rfl⟩
        · rcases jsonParse (b64urlDecodeStr p) with _ | payload
          · exact ⟨false, rfl⟩
          · simp only []
            split
            · exact ⟨false, rfl⟩
            · split
              · exact ⟨false, rfl⟩
              · split
                · exact ⟨false, rfl⟩
                · exact ⟨true, rfl⟩
      · exact ⟨false, by rw [if_pos hlen]⟩
    · exact ⟨false, rfl⟩
  · intro p s hsp hjp
    unfold verifyStateTokenE
    rw [hsp]
    simp only []
    split
    · rfl
    · rename_i hlen
      simp only [timingSafeEqual]
      rw [if_pos (by simpa using hlen)]
      simp only []
      split
      · rfl
      · rw [hjp]

end InventoryProxy
